import Mathlib

/-!
Shallow embedding of the `thumbnail-finder` scraping core
(`thumbnail_finder/thumbnail_finder.py` and `thumbnail_finder/utils.py`).

Python strings are modelled as `List Char`, machine integers as `Nat`,
Python float arithmetic on image areas as exact rationals (`Rat`),
fallible code as `Except PyExc`.  Network I/O is modelled by an oracle
mapping a request URL to a response or an exception, and every network
operation additionally returns the list of outbound request URLs it issued.
-/

/-- Python strings, modelled as lists of unicode code points. -/
abbrev Str := List Char

/-- Python `needle in hay` on strings (substring containment). -/
def py_contains (hay needle : Str) : Bool :=
  hay.tails.any (fun t => needle.isPrefixOf t)

/-- Python `str.lower` (modelled for ASCII; the URLs handled here are ASCII). -/
def py_lower (s : Str) : Str := s.map Char.toLower

/-- Python `str.startswith`. -/
def py_startswith (s pre : Str) : Bool := pre.isPrefixOf s

/-- Python `str.lstrip(c)`: drop every leading occurrence of `c`. -/
def py_lstrip_char (c : Char) (s : Str) : Str := s.dropWhile (· == c)

/-- The Python exceptions relevant to the scraping core. -/
inductive PyExc where
  | typeError
  | keyError
  | valueError
  | urlError        -- urllib.error.URLError
  | httpError       -- urllib.error.HTTPError (subclass of URLError)
  | connectionError -- requests.exceptions.ConnectionError
  | timeoutExc      -- utils.TimeoutFunctionException
  | otherExc
deriving DecidableEq

/-- UTF-8 encoding of one code point (Python `str.encode("utf8")`, per char). -/
def charUtf8 (c : Char) : List Nat :=
  let n := c.toNat
  if n < 0x80 then [n]
  else if n < 0x800 then [0xC0 + n / 64, 0x80 + n % 64]
  else if n < 0x10000 then [0xE0 + n / 4096, 0x80 + n / 64 % 64, 0x80 + n % 64]
  else [0xF0 + n / 262144, 0x80 + n / 4096 % 64, 0x80 + n / 64 % 64, 0x80 + n % 64]

/-- `str.encode("utf8")` on a whole string. -/
def strUtf8 (s : Str) : List Nat := (s.map charUtf8).flatten

/-- Bytes never quoted by `urllib.parse.quote` (`_ALWAYS_SAFE`:
letters, digits, `_.-~`). -/
def alwaysSafeByte (b : Nat) : Bool :=
  (0x41 ≤ b && b ≤ 0x5A) || (0x61 ≤ b && b ≤ 0x7A) || (0x30 ≤ b && b ≤ 0x39) ||
  b == 0x5F || b == 0x2E || b == 0x2D || b == 0x7E

/-- Uppercase hexadecimal digit. -/
def hexDigitU (n : Nat) : Char := ("0123456789ABCDEF".toList).getD n '0'

/-- `%XX` escape of one byte (uppercase hex, as `urllib.parse.quote`). -/
def pctEncode (b : Nat) : Str := ['%', hexDigitU (b / 16), hexDigitU (b % 16)]

/-- `urllib.parse.quote_plus` with `safe=''` on a `str`: spaces become `+`,
safe bytes pass through, all other UTF-8 bytes are `%XX`-escaped. -/
def py_quote_plus (s : Str) : Str :=
  ((strUtf8 s).map (fun b =>
    if b == 0x20 then ['+']
    else if alwaysSafeByte b then [Char.ofNat b]
    else pctEncode b)).flatten

/-- `utils.url_escape`: encode to UTF-8 then `quote_plus`. -/
def url_escape (s : Str) : Str := py_quote_plus s

/-- Value of one hexadecimal digit character. -/
def hexVal (c : Char) : Option Nat :=
  if '0' ≤ c ∧ c ≤ '9' then some (c.toNat - 48)
  else if 'a' ≤ c ∧ c ≤ 'f' then some (c.toNat - 87)
  else if 'A' ≤ c ∧ c ≤ 'F' then some (c.toNat - 55)
  else none

/-- Percent-decoding: `%XX` pairs become bytes, other characters pass through
(the per-item phase of `urllib.parse.unquote`). -/
def pctDecode : Str → List (Char ⊕ Nat)
  | '%' :: a :: b :: rest =>
    match hexVal a, hexVal b with
    | some x, some y => Sum.inr (16 * x + y) :: pctDecode rest
    | _, _ => Sum.inl '%' :: pctDecode (a :: b :: rest)
  | c :: rest => Sum.inl c :: pctDecode rest
  | [] => []

/-- Is a byte a UTF-8 continuation byte? -/
def isCont (b : Nat) : Bool := 0x80 ≤ b && b ≤ 0xBF

/-- Second-byte constraint for a 3-byte UTF-8 lead (excludes overlong forms
and surrogates). -/
def cont3Ok (b b2 : Nat) : Bool :=
  if b == 0xE0 then 0xA0 ≤ b2 && b2 ≤ 0xBF
  else if b == 0xED then 0x80 ≤ b2 && b2 ≤ 0x9F
  else isCont b2

/-- Second-byte constraint for a 4-byte UTF-8 lead. -/
def cont4Ok (b b2 : Nat) : Bool :=
  if b == 0xF0 then 0x90 ≤ b2 && b2 ≤ 0xBF
  else if b == 0xF4 then 0x80 ≤ b2 && b2 ≤ 0x8F
  else isCont b2

/-- UTF-8 decoding with U+FFFD replacement (Python `bytes.decode("utf8",
"replace")`; an invalid lead byte yields one replacement char). -/
def utf8Decode : List Nat → Str
  | [] => []
  | b :: rest =>
    if b < 0x80 then Char.ofNat b :: utf8Decode rest
    else if 0xC2 ≤ b && b ≤ 0xDF then
      match rest with
      | b2 :: rest2 =>
        if isCont b2 then
          Char.ofNat ((b - 0xC0) * 64 + (b2 - 0x80)) :: utf8Decode rest2
        else '�' :: utf8Decode (b2 :: rest2)
      | [] => ['�']
    else if 0xE0 ≤ b && b ≤ 0xEF then
      match rest with
      | b2 :: b3 :: rest3 =>
        if cont3Ok b b2 && isCont b3 then
          Char.ofNat ((b - 0xE0) * 4096 + (b2 - 0x80) * 64 + (b3 - 0x80)) ::
            utf8Decode rest3
        else '�' :: utf8Decode (b2 :: b3 :: rest3)
      | [b2] => if cont3Ok b b2 then ['�'] else '�' :: utf8Decode [b2]
      | [] => ['�']
    else if 0xF0 ≤ b && b ≤ 0xF4 then
      match rest with
      | b2 :: b3 :: b4 :: rest4 =>
        if cont4Ok b b2 && isCont b3 && isCont b4 then
          Char.ofNat ((b - 0xF0) * 262144 + (b2 - 0x80) * 4096 +
            (b3 - 0x80) * 64 + (b4 - 0x80)) :: utf8Decode rest4
        else '�' :: utf8Decode (b2 :: b3 :: b4 :: rest4)
      | rest' => '�' :: utf8Decode rest'
    else '�' :: utf8Decode rest

/-- Split off the maximal leading run of decoded bytes. -/
def takeBytes : List (Char ⊕ Nat) → List Nat × List (Char ⊕ Nat)
  | Sum.inr b :: rest => let p := takeBytes rest; (b :: p.1, p.2)
  | l => ([], l)

theorem takeBytes_snd_length_le : ∀ l : List (Char ⊕ Nat),
    (takeBytes l).2.length ≤ l.length := by
  intro l
  induction l with
  | nil => simp [takeBytes]
  | cons x rest ih =>
    cases x with
    | inl c => simp [takeBytes]
    | inr b => simpa [takeBytes] using Nat.le_succ_of_le ih

/-- Regroup percent-decoded items, UTF-8-decoding each maximal byte run
(the reassembly phase of `urllib.parse.unquote`). -/
def decodeItems : List (Char ⊕ Nat) → Str
  | [] => []
  | Sum.inl c :: rest => c :: decodeItems rest
  | Sum.inr b :: rest =>
    let p := takeBytes rest
    utf8Decode (b :: p.1) ++ decodeItems p.2
termination_by l => l.length
decreasing_by
  all_goals simp
  exact Nat.lt_succ_of_le (takeBytes_snd_length_le rest)

/-- `urllib.parse.unquote` (UTF-8, errors="replace"). -/
def py_unquote (s : Str) : Str := decodeItems (pctDecode s)

/-- `urllib.parse.unquote_plus`: `+` means space, then percent-decode. -/
def py_unquote_plus (s : Str) : Str :=
  py_unquote (s.map (fun c => if c == '+' then ' ' else c))

/-! ## `urllib.parse` — the stdlib fragment `utils.py` relies on
(modelled on CPython 3.11 `urllib/parse.py`). -/

/-- WHATWG C0-control-or-space predicate used by `urlsplit` sanitization. -/
def c0OrSpace (c : Char) : Bool := c.toNat ≤ 0x20

/-- `urlsplit` input sanitization: strip leading C0 controls and spaces,
remove tab/CR/LF everywhere. -/
def sanitizeUrl (s : Str) : Str :=
  (s.dropWhile c0OrSpace).filter (fun c => !(c == '\t' || c == '\r' || c == '\n'))

/-- Characters allowed in a scheme (`urllib.parse.scheme_chars`). -/
def scheme_chars : Str :=
  "abcdefghijklmnopqrstuvwxyzABCDEFGHIJKLMNOPQRSTUVWXYZ0123456789+-.".toList

/-- Result tuple of `urlsplit`. -/
structure SplitUrl where
  scheme : Str
  netloc : Str
  path : Str
  query : Str
  fragment : Str
deriving DecidableEq

/-- The characters ending a netloc (`_splitnetloc` delimiters). -/
def netlocDelim (c : Char) : Bool := c == '/' || c == '?' || c == '#'

/-- The scheme-detection step of `urlsplit`: `i = url.find(':')` with
`i > 0`, an ASCII-letter first character, and only scheme characters before
the colon. -/
def splitScheme (url : Str) : Str × Str :=
  if url.any (fun c => c == ':') &&
      (url.takeWhile (fun c => c != ':')).length > 0 &&
      (match url.head? with
       | some c => c.isAlpha
       | none => false) &&
      (url.takeWhile (fun c => c != ':')).all (fun c => scheme_chars.contains c) then
    (py_lower (url.takeWhile (fun c => c != ':')),
     url.drop ((url.takeWhile (fun c => c != ':')).length + 1))
  else ([], url)

/-- The netloc step of `urlsplit`: after `//`, up to the first `/`, `?` or
`#` (`_splitnetloc`). -/
def splitNetloc (url : Str) : Str × Str :=
  if py_startswith url "//".toList then
    ((url.drop 2).takeWhile (fun c => !netlocDelim c),
     (url.drop 2).dropWhile (fun c => !netlocDelim c))
  else ([], url)

/-- Python `url.split(sep, 1)` when `sep in url`, else `(url, '')` — the
shape of the fragment and query steps of `urlsplit`. -/
def splitOnFirstChar (sep : Char) (url : Str) : Str × Str :=
  if url.contains sep then
    (url.takeWhile (fun c => c != sep), (url.dropWhile (fun c => c != sep)).drop 1)
  else (url, [])

/-- The fragment step of `urlsplit`: split at the first `#`, if any. -/
def splitFragment (url : Str) : Str × Str := splitOnFirstChar '#' url

/-- The query step of `urlsplit`: split at the first `?`, if any. -/
def splitQuery (url : Str) : Str × Str := splitOnFirstChar '?' url

/-- `urllib.parse.urlsplit` (with `allow_fragments=True`; the `ValueError`
paths for invalid bracketed hosts are not modelled — no input in this
development contains brackets). -/
def py_urlsplit (url0 : Str) : SplitUrl :=
  { scheme := (splitScheme (sanitizeUrl url0)).1,
    netloc := (splitNetloc (splitScheme (sanitizeUrl url0)).2).1,
    path := (splitQuery (splitFragment
      (splitNetloc (splitScheme (sanitizeUrl url0)).2).2).1).1,
    query := (splitQuery (splitFragment
      (splitNetloc (splitScheme (sanitizeUrl url0)).2).2).1).2,
    fragment := (splitFragment (splitNetloc (splitScheme (sanitizeUrl url0)).2).2).2 }

/-- Schemes for which `urlparse` splits path parameters. -/
def uses_params : List Str :=
  ["", "ftp", "hdl", "prospero", "http", "imap", "https", "shttp", "rtsp",
   "rtspu", "sip", "sips", "mms", "sftp", "tel"].map String.toList

/-- `urllib.parse._splitparams`: split at the first `;` in the last path
component. -/
def splitparams (url : Str) : Str × Str :=
  if url.contains '/' then
    let revTail := url.reverse.takeWhile (fun c => c != '/')
    let before := url.take (url.length - revTail.length)
    let finalComp := revTail.reverse
    if finalComp.contains ';' then
      (before ++ finalComp.takeWhile (fun c => c != ';'),
       (finalComp.dropWhile (fun c => c != ';')).drop 1)
    else (url, [])
  else if url.contains ';' then
    (url.takeWhile (fun c => c != ';'), (url.dropWhile (fun c => c != ';')).drop 1)
  else (url, [])

/-- Result tuple of `urlparse`. -/
structure ParsedUrl where
  scheme : Str
  netloc : Str
  path : Str
  params : Str
  query : Str
  fragment : Str
deriving DecidableEq

/-- `urllib.parse.urlparse`. -/
def py_urlparse (url : Str) : ParsedUrl :=
  let s := py_urlsplit url
  let pp :=
    if uses_params.contains s.scheme && s.path.contains ';' then
      splitparams s.path
    else (s.path, ([] : Str))
  { scheme := s.scheme, netloc := s.netloc, path := pp.1, params := pp.2,
    query := s.query, fragment := s.fragment }

/-- `netloc.rpartition('@')[2]`: the part after the last `@` (the whole
string when there is none). -/
def afterLastAt (netloc : Str) : Str :=
  (netloc.reverse.takeWhile (fun c => c != '@')).reverse

/-- The `hostname` property of a parse result: lowercased host, `none` when
empty (bracketed hosts: the text between `[` and `]`). -/
def pyHostname (netloc : Str) : Option Str :=
  let hostinfo := afterLastAt netloc
  let host :=
    if hostinfo.contains '[' then
      ((hostinfo.dropWhile (fun c => c != '[')).drop 1).takeWhile (fun c => c != ']')
    else hostinfo.takeWhile (fun c => c != ':')
  if host.isEmpty then none else some (py_lower host)

/-- The `port` property: number after the final `:`; `none` when absent or
empty.  (CPython raises `ValueError` on non-numeric ports; such URLs do not
occur in this development and that path is not modelled.) -/
def pyPort (netloc : Str) : Option Nat :=
  let hostinfo := afterLastAt netloc
  let portStr :=
    if hostinfo.contains '[' then
      let afterBr :=
        ((hostinfo.dropWhile (fun c => c != '[')).drop 1).dropWhile (fun c => c != ']')
      (afterBr.dropWhile (fun c => c != ':')).drop 1
    else (hostinfo.dropWhile (fun c => c != ':')).drop 1
  if portStr.isEmpty || !portStr.all Char.isDigit then none
  else some (portStr.foldl (fun n c => 10 * n + (c.toNat - 48)) 0)

/-- `urllib.parse.urlunsplit`. -/
def py_urlunsplit (scheme netloc url query fragment : Str) : Str :=
  let url :=
    if !netloc.isEmpty || py_startswith url "//".toList then
      let url := if !url.isEmpty && url.head? != some '/' then '/' :: url else url
      '/' :: '/' :: (netloc ++ url)
    else url
  let url := if !scheme.isEmpty then scheme ++ ':' :: url else url
  let url := if !query.isEmpty then url ++ '?' :: query else url
  if !fragment.isEmpty then url ++ '#' :: fragment else url

/-- `urllib.parse.urlunparse`. -/
def py_urlunparse (scheme netloc url params query fragment : Str) : Str :=
  let url := if !params.isEmpty then url ++ ';' :: params else url
  py_urlunsplit scheme netloc url query fragment

/-! ## `utils.UrlParser` -/

/-- `utils.UrlParser`: slots copied from the `urlparse` result plus the
original url and netloc.  An empty hostname is `none`, as in the Python
`hostname` property. -/
structure UrlParser where
  scheme : Str
  path : Str
  params : Str
  query : Str
  fragment : Str
  hostname : Option Str
  port : Option Nat
  orig_url : Str
  orig_netloc : Str
deriving DecidableEq

/-- `UrlParser.__init__`. -/
def UrlParser.ofUrl (url : Str) : UrlParser :=
  let u := py_urlparse url
  { scheme := u.scheme, path := u.path, params := u.params, query := u.query,
    fragment := u.fragment, hostname := pyHostname u.netloc,
    port := pyPort u.netloc, orig_url := url, orig_netloc := u.netloc }

/-- `_force_unicode` (imported by `utils.py`; the identity on `str`). -/
def _force_unicode (s : Str) : Str := s

/-- One `k=v` query parameter, split at the first `=` and unescaped
(`UrlParser.query_dict._split`). -/
def querySplitParam (p : Str) : Str × Str :=
  let parts := p.splitOn '='
  (py_unquote_plus (parts.headD []),
   py_unquote_plus (List.intercalate ['='] parts.tail))

/-- `OrderedDict` insertion: an existing key keeps its position and takes the
new value, a new key is appended. -/
def odInsert (d : List (Str × Str)) (kv : Str × Str) : List (Str × Str) :=
  if d.any (fun p => p.1 == kv.1) then
    d.map (fun p => if p.1 == kv.1 then (p.1, kv.2) else p)
  else d ++ [kv]

/-- `UrlParser.query_dict`: ordered dict of unescaped query parameters. -/
def query_dict (query : Str) : List (Str × Str) :=
  (((query.splitOn '&').filter (fun p => !p.isEmpty)).map querySplitParam).foldl
    odInsert []

/-- `utils.query_string`: rebuild `?k=v&...` from a dict.  (Values are never
`None` here, and the `UnicodeDecodeError` branch cannot fire on `str`
inputs.) -/
def query_string (d : List (Str × Str)) : Str :=
  let pairs := d.map (fun kv =>
    url_escape (_force_unicode kv.1) ++ '=' :: url_escape (_force_unicode kv.2))
  if pairs.isEmpty then []
  else '?' :: List.intercalate ['&'] pairs

/-- `str(n)` for a port number. -/
def natDigits (n : Nat) : Str := (toString n).toList

/-- The `UrlParser.netloc` property: `hostname[:port]`, empty without a
hostname (a port of `0` is falsy in Python and is omitted). -/
def UrlParser.netloc (p : UrlParser) : Str :=
  match p.hostname with
  | none => []
  | some h =>
    match p.port with
    | some pt => if pt == 0 then h else h ++ ':' :: natDigits pt
    | none => h

/-- Python `path.replace('//', '/')`: one left-to-right non-overlapping
pass. -/
def replaceDslash : Str → Str
  | '/' :: '/' :: rest => '/' :: replaceDslash rest
  | c :: rest => c :: replaceDslash rest
  | [] => []

/-- `UrlParser._unparse`: the 6-tuple handed to `urlunparse`, after fixing a
doubly-specified port, defaulting the scheme when a netloc is present, and
collapsing `//` in the path.  The Python method mutates `hostname`/`scheme`
in place; the mutation is modelled functionally (it cannot change any later
check in the flows of this program).  When `port` is set but `hostname` is
`None` the Python code raises `TypeError`; that combination never occurs in
this development and is not modelled. -/
def UrlParser._unparse (p : UrlParser) : Str × Str × Str × Str × Str × Str :=
  let q := py_lstrip_char '?' (query_string (query_dict p.query))
  let hostname :=
    match p.port, p.hostname with
    | some pt, some h =>
      if pt != 0 && h.contains ':' then some (h.takeWhile (fun c => c != ':'))
      else some h
    | _, h => h
  let netloc := UrlParser.netloc { p with hostname := hostname }
  let scheme := if !netloc.isEmpty && p.scheme.isEmpty then "http".toList else p.scheme
  (scheme, netloc, replaceDslash p.path, p.params, q, p.fragment)

/-- `UrlParser.unparse`. -/
def UrlParser.unparse (p : UrlParser) : Str :=
  match p._unparse with
  | (scheme, netloc, url, params, query, fragment) =>
    py_urlunparse scheme netloc url params query fragment

/-- `utils.coerce_url_to_protocol`. -/
def coerce_url_to_protocol (url : Str) (protocol : Str) : Str :=
  UrlParser.unparse { UrlParser.ofUrl url with scheme := protocol }

/-- `UrlParser.set_extension`. -/
def UrlParser.set_extension (p : UrlParser) (extension : Str) : UrlParser :=
  let pieces := p.path.splitOn '/'
  let dirs := pieces.dropLast
  let base0 := (pieces.getLastD []).splitOn '.'
  let base := List.intercalate ['.'] (if base0.length > 1 then base0.dropLast else base0)
  let base := if !extension.isEmpty then base ++ '.' :: extension else base
  { p with path := List.intercalate ['/'] (dirs ++ [base]) }

/-- `UrlParser.valid_schemes`. -/
def valid_schemes : List Str := ["http", "https", "ftp", "mailto"].map String.toList

/-- One-char matches of `URL_PROBLEMATIC_RE`: control characters `\x00-\x19`,
various unicode space/separator code points, backslash.  (A plain space
matches only at the very start; that case is handled in the scan.) -/
def problematicChar (c : Char) : Bool :=
  c.toNat ≤ 0x19 || c.toNat == 0xA0 || c.toNat == 0x1680 || c.toNat == 0x180E ||
  (0x2000 ≤ c.toNat && c.toNat ≤ 0x2029) || c.toNat == 0x205F ||
  c.toNat == 0x3000 || c == '\\'

/-- The problematic-character scan of `is_web_safe_url`: every match of
`URL_PROBLEMATIC_RE` must be a non-breaking space preceded by at least three
slashes. -/
def problematicScanOk (s : Str) : Bool :=
  (List.range s.length).all (fun i =>
    let c := s.getD i 'x'
    if (i == 0 && c == ' ') || problematicChar c then
      c == '\xA0' && decide (3 ≤ (s.take i).count '/')
    else true)

/-- Body of `UrlParser.is_web_safe_url` (the check run on each paranoid
variant). -/
def is_web_safe_check (p : UrlParser) : Bool :=
  if py_startswith p.orig_url "///".toList then false
  else if p.hostname.isNone && py_startswith p.path "//".toList then false
  else if !p.scheme.isEmpty && p.hostname.isNone then false
  else if p.orig_netloc.contains '@' then false
  else if !p.scheme.isEmpty && !valid_schemes.contains (py_lower p.scheme) then false
  else problematicScanOk p.orig_url

/-- `perform_paranoid_check` specialised to `is_web_safe_url`: the check must
pass both on the parser itself and on a reparse of its unparse. -/
def is_web_safe_url_p (p : UrlParser) : Bool :=
  is_web_safe_check p && is_web_safe_check (UrlParser.ofUrl p.unparse)

/-- `UrlParser(url).is_web_safe_url()`. -/
def is_web_safe_url (url : Str) : Bool :=
  is_web_safe_url_p (UrlParser.ofUrl url)

/-! ## `thumbnail_finder.py` — the scraping core

BeautifulSoup documents are modelled structurally (`Soup`), and
`urllib.parse.urljoin` — a pure stdlib call — is abstracted as an
`absolutify : Str → Str` parameter so that every theorem quantifies over
it.  The network is an oracle from request URL to response-or-exception;
each operation also returns the list of request URLs it issued.  The
`@memoize` caches (absent from `utils.py` itself) are modelled separately
(`memoized_call`); the pipeline below is their cold-cache behaviour. -/

/-- A `<meta>` tag as `_scrape_og_url` sees it: its `property`, `name` and
`content` attributes. -/
structure MetaTag where
  prop : Option Str
  nameAttr : Option Str
  content : Option Str
deriving DecidableEq

/-- A `<link>` tag: whether `soup.find('link', rel='image_src')` matches it,
and its `href` attribute (`none` when missing — subscripting then raises
`KeyError`). -/
structure LinkTag where
  relImageSrc : Bool
  href : Option Str
deriving DecidableEq

/-- A parsed HTML document, as far as the three heuristics inspect it:
meta tags, link tags, and the `src` of every `<img src=...>` in order. -/
structure Soup where
  metas : List MetaTag
  links : List LinkTag
  imgSrcs : List Str
deriving DecidableEq

/-- One HTTP response, carrying each consumer's view of the body:
`soup` is `BeautifulSoup(body)`, `imageSize` what `ImageFile.Parser` finds,
`jsonOk`/`jsonObj` what `json.loads` yields (an empty object is falsy). -/
structure NetResponse where
  contentType : Option Str
  bodyNonempty : Bool
  soup : Soup
  imageSize : Option (Nat × Nat)
  jsonOk : Bool
  jsonObj : List (Str × Str)
deriving DecidableEq

/-- The network oracle: a response or a raised exception per request URL. -/
def Net : Type := Str → Except PyExc NetResponse

/-- `_clean_url`: percent-quote every char with code point ≥ 127. -/
def _clean_url (url : Str) : Str :=
  (url.map (fun c =>
    if 127 ≤ c.toNat then ((charUtf8 c).map pctEncode).flatten else [c])).flatten

/-- `_initialize_request`: clean the url and require an `http://`/`https://`
prefix; returns the request's target URL (headers are not modelled — no
claim mentions them). -/
def _initialize_request (url : Str) : Option Str :=
  let url := _clean_url url
  if py_startswith url "http://".toList || py_startswith url "https://".toList then
    some url
  else none

/-- `_fetch_url`: returns `(content_type, content)`, recording the request.
`urlopen` errors propagate (they are caught further up); gzip decoding only
changes the bytes, which the model does not inspect beyond emptiness. -/
def _fetch_url (net : Net) (url : Str) :
    Except PyExc (Option Str × Option NetResponse) × List Str :=
  match _initialize_request url with
  | none => (.ok (none, none), [])
  | some u =>
    match net u with
    | .error e => (.error e, [u])
    | .ok r => (.ok (r.contentType, some r), [u])

/-- `_fetch_image_size`: probe an image URL for its dimensions.
`urllib.error.URLError` (and its subclass `HTTPError`) is caught and turned
into `None`; other exceptions propagate. -/
def _fetch_image_size (net : Net) (url : Str) :
    Except PyExc (Option (Nat × Nat)) × List Str :=
  match _initialize_request url with
  | none => (.ok none, [])
  | some u =>
    match net u with
    | .error PyExc.urlError => (.ok none, [u])
    | .error PyExc.httpError => (.ok none, [u])
    | .error e => (.error e, [u])
    | .ok r => (.ok r.imageSize, [u])

/-- Does the URL contain `"sprite"` case-insensitively? -/
def spriteIn (url : Str) : Bool := py_contains (py_lower url) "sprite".toList

/-- One iteration of `_find_largest_image_url`'s loop over a candidate
`(image_url, probed size)`: skip unsized, small (area < 5000) and
elongated (`max/min > 2`) images, divide a sprite's area by 10, and keep
the strictly larger area.  Python's float arithmetic is modelled
exactly over `Rat`. -/
def largest_step (acc : Rat × Option Str) (cand : Str × Option (Nat × Nat)) :
    Rat × Option Str :=
  match cand.2 with
  | none => acc
  | some wh =>
    let area : Rat := (wh.1 * wh.2 : Nat)
    if area < 5000 then acc
    else if ((max wh.1 wh.2 : Nat) : Rat) / ((min wh.1 wh.2 : Nat) : Rat) > 2 then acc
    else
      let area := if spriteIn cand.1 then area / 10 else area
      if acc.1 < area then (area, some cand.1) else acc

/-- The tail of `_find_largest_image_url`: `logging.debug('Max URL ' +
max_url)` concatenates `None` when nothing survived, raising `TypeError`;
otherwise the best URL is returned. -/
def largest_finish (acc : Rat × Option Str) : Except PyExc (Option Str) :=
  match acc.2 with
  | none => .error PyExc.typeError
  | some u => .ok (some u)

/-- `_find_largest_image_url` as a function of the already-probed candidate
list (the claims about the heuristic quantify over these pairs). -/
def find_largest_core (cands : List (Str × Option (Nat × Nat))) :
    Except PyExc (Option Str) :=
  largest_finish (cands.foldl largest_step (0, none))

/-- Candidate URL preparation inside `_find_largest_image_url`'s loop:
absolutify the extracted `src`, then coerce a protocol-relative result to
the source page's protocol. -/
def coerce_image_url (absolutify : Str → Str) (protocol : Str) (src : Str) : Str :=
  if py_startswith (absolutify src) "//".toList then
    coerce_url_to_protocol (absolutify src) protocol
  else absolutify src

/-- The probing loop of `_find_largest_image_url` over the extracted
`<img src>` values: absolutify, coerce protocol-relative URLs to the page's
protocol, probe the size, and fold `largest_step`. -/
def largest_loop (net : Net) (absolutify : Str → Str) (protocol : Str)
    (referer : Str) : List Str → (Rat × Option Str) →
    Except PyExc (Option Str) × List Str
  | [], acc => (largest_finish acc, [])
  | src :: rest, acc =>
    match _fetch_image_size net (coerce_image_url absolutify protocol src) with
    | (.error e, t) => (.error e, t)
    | (.ok size, t) =>
      ((largest_loop net absolutify protocol referer rest
          (largest_step acc (coerce_image_url absolutify protocol src, size))).1,
       t ++ (largest_loop net absolutify protocol referer rest
          (largest_step acc (coerce_image_url absolutify protocol src, size))).2)

/-- `_scrape_og_url`: the four-way `find` chain over `<meta>` tags, then the
`content` attribute (empty or missing content yields nothing — the chain
does not fall through to the later lookups). -/
def _scrape_og_url (absolutify : Str → Str) (soup : Soup) : Option Str :=
  let og_image :=
    (soup.metas.find? (fun m => m.prop == some "og:image".toList)).or
    ((soup.metas.find? (fun m => m.nameAttr == some "og:image".toList)).or
    ((soup.metas.find? (fun m => m.prop == some "og:image:url".toList)).or
    (soup.metas.find? (fun m => m.nameAttr == some "og:image:url".toList))))
  match og_image with
  | none => none
  | some t =>
    match t.content with
    | none => none
    | some c => if c.isEmpty then none else some (absolutify c)

/-- `_scrape_thumbnail_spec`: `<link rel="image_src">`; subscripting a link
without `href` raises `KeyError`. -/
def _scrape_thumbnail_spec (absolutify : Str → Str) (soup : Soup) :
    Except PyExc (Option Str) :=
  match soup.links.find? (fun l => l.relImageSrc) with
  | none => .ok none
  | some l =>
    match l.href with
    | none => .error PyExc.keyError
    | some h => if h.isEmpty then .ok none else .ok (some (absolutify h))

/-- Does the declared content type contain the given token
(`content_type and sub in content_type`)? -/
def content_type_has (content_type : Option Str) (sub : Str) : Bool :=
  match content_type with
  | some ct => py_contains ct sub
  | none => false

/-- `_ThumbnailOnlyScraper.scrape`: fetch the page; an image content type
returns the page URL itself; an HTML body runs the three heuristics in
order, returning the first non-`None` result.  (`self.protocol` is the
scheme of `urlparse(url)`.) -/
def thumbnail_only_scrape (net : Net) (absolutify : Str → Str) (url : Str) :
    Except PyExc (Option Str) × List Str :=
  match _fetch_url net url with
  | (.error e, t) => (.error e, t)
  | (.ok (content_type, content), t) =>
    match content with
    | none => (.ok none, t)
    | some resp =>
      if content_type_has content_type "image".toList && resp.bodyNonempty then
        (.ok (some url), t)
      else if content_type_has content_type "html".toList && resp.bodyNonempty then
        match _scrape_og_url absolutify resp.soup with
        | some r => (.ok (some r), t)
        | none =>
          match _scrape_thumbnail_spec absolutify resp.soup with
          | .error e => (.error e, t)
          | .ok (some r) => (.ok (some r), t)
          | .ok none =>
            ((largest_loop net absolutify (py_urlparse url).scheme url
                resp.soup.imgSrcs (0, none)).1,
             t ++ (largest_loop net absolutify (py_urlparse url).scheme url
                resp.soup.imgSrcs (0, none)).2)
      else (.ok none, t)

/-- `_YouTubeScraper.URL_MATCH` (`re.match`, i.e. anchored at the start):
`https?://((www\.)?youtube\.com/watch|youtu\.be/)`. -/
def youtube_matches (url : Str) : Bool :=
  py_startswith url "http://youtube.com/watch".toList ||
  py_startswith url "https://youtube.com/watch".toList ||
  py_startswith url "http://www.youtube.com/watch".toList ||
  py_startswith url "https://www.youtube.com/watch".toList ||
  py_startswith url "http://youtu.be/".toList ||
  py_startswith url "https://youtu.be/".toList

/-- `_YouTubeScraper.OEMBED_ENDPOINT`. -/
def OEMBED_ENDPOINT : Str := "https://www.youtube.com/oembed".toList

/-- `_fetch_from_youtube`: one GET to the fixed oEmbed endpoint (the page
URL and maxwidth travel only as query parameters of that request, which the
oracle models as part of the response); `json.loads` failure raises
`ValueError`, a `requests` failure propagates as raised. -/
def _fetch_from_youtube (net : Net) :
    Except PyExc (List (Str × Str)) × List Str :=
  match net OEMBED_ENDPOINT with
  | .error e => (.error e, [OEMBED_ENDPOINT])
  | .ok r =>
    (if r.jsonOk then .ok r.jsonObj else .error PyExc.valueError, [OEMBED_ENDPOINT])

/-- `_YouTubeScraper.scrape`: a falsy oEmbed object yields `None`, otherwise
`oembed.get("thumbnail_url")`. -/
def youtube_scrape (net : Net) : Except PyExc (Option Str) × List Str :=
  match _fetch_from_youtube net with
  | (.error e, t) => (.error e, t)
  | (.ok oembed, t) =>
    if oembed.isEmpty then (.ok none, t)
    else (.ok ((oembed.find? (fun p => p.1 == "thumbnail_url".toList)).map (·.2)), t)

/-- The two scraper variants `Scraper.for_url` can produce. -/
inductive ScraperKind where
  | youtubeScraper
  | thumbnailOnlyScraper
deriving DecidableEq

/-- `Scraper.for_url` (dispatch only). -/
def for_url (url : Str) (use_youtube_scraper : Bool) : ScraperKind :=
  if use_youtube_scraper && youtube_matches url then .youtubeScraper
  else .thumbnailOnlyScraper

/-- `Scraper.for_url(url).scrape()` with the default configuration. -/
def scraper_scrape (net : Net) (absolutify : Str → Str) (url : Str) :
    Except PyExc (Option Str) × List Str :=
  if youtube_matches url then youtube_scrape net
  else thumbnail_only_scrape net absolutify url

/-- `get_thumbnail_url.get_url`: `HTTPError`/`URLError` become `None`. -/
def get_url (net : Net) (absolutify : Str → Str) (url : Str) :
    Except PyExc (Option Str) × List Str :=
  match scraper_scrape net absolutify url with
  | (.error PyExc.httpError, t) => (.ok none, t)
  | (.error PyExc.urlError, t) => (.ok none, t)
  | r => r

/-- `get_thumbnail_url` (cold cache): the 30-second `TimeoutFunction` alarm
is modelled as a `timeoutExc` raised from within the wrapped call; it and
the final bare `except:` both log and fall through to an implicit `None`. -/
def get_thumbnail_url (net : Net) (absolutify : Str → Str) (url : Str) :
    Option Str × List Str :=
  match get_url net absolutify url with
  | (.ok v, t) => (v, t)
  | (.error _, t) => (none, t)

/-- Modelled from the spec: the `memoize` decorator is imported from
`.utils` but absent from the sources; §4.3 describes it as an unbounded
per-argument result cache for the life of the process.  `memoized_call f
cache key` returns the (possibly cached) result, the new cache, and how many
times it invoked the underlying `f`. -/
def memoized_call (f : Str → Option Str) (cache : List (Str × Option Str))
    (k : Str) : Option Str × List (Str × Option Str) × Nat :=
  match cache.find? (fun p => p.1 == k) with
  | some p => (p.2, cache, 0)
  | none => (f k, (k, f k) :: cache, 1)

instance {ε α : Type} [DecidableEq ε] [DecidableEq α] :
    DecidableEq (Except ε α) := fun x y =>
  match x, y with
  | .ok a, .ok b =>
    if h : a = b then .isTrue (by rw [h]) else .isFalse (by simp [h])
  | .error e, .error f =>
    if h : e = f then .isTrue (by rw [h]) else .isFalse (by simp [h])
  | .ok _, .error _ => .isFalse (by simp)
  | .error _, .ok _ => .isFalse (by simp)

/-! ## Shared concrete oracles for witnesses and counterexamples -/

/-- An oracle on which every request raises `urllib.error.URLError`. -/
def netUrlErr : Net := fun _ => .error PyExc.urlError

/-- An oracle on which every request raises a `requests` connection error. -/
def netConnErr : Net := fun _ => .error PyExc.connectionError

/-- An oracle on which every request times out under the deadline guard. -/
def netTimeout : Net := fun _ => .error PyExc.timeoutExc

/-- An empty parsed document. -/
def emptySoup : Soup := { metas := [], links := [], imgSrcs := [] }

/-- An oEmbed response carrying a `thumbnail_url` field. -/
def netOembedOk : Net := fun _ =>
  .ok { contentType := some "application/json".toList, bodyNonempty := true,
        soup := emptySoup, imageSize := none, jsonOk := true,
        jsonObj := [("title".toList, "a video".toList),
                    ("thumbnail_url".toList, "https://i.ytimg.com/vi/x/hq.jpg".toList)] }

/-- Claim C2 -/
theorem get_thumbnail_url_absorbs_errors (net : Net) (absolutify : Str → Str)
    (url : Str) :
    (∀ e, (scraper_scrape net absolutify url).1 = .error e →
      (get_thumbnail_url net absolutify url).1 = none) ∧
    (∀ v, (scraper_scrape net absolutify url).1 = .ok v →
      (get_thumbnail_url net absolutify url).1 = v) := by
  constructor
  · intro e he
    rcases hs : scraper_scrape net absolutify url with ⟨r, t⟩
    rw [hs] at he
    simp only at he
    subst he
    cases e <;> simp [get_thumbnail_url, get_url, hs]
  · intro v hv
    rcases hs : scraper_scrape net absolutify url with ⟨r, t⟩
    rw [hs] at hv
    simp only at hv
    subst hv
    simp [get_thumbnail_url, get_url, hs]

/-- witness C2 -/
theorem get_thumbnail_url_absorbs_errors_witness :
    (get_thumbnail_url netTimeout id "http://ex.com/page".toList).1 = none :=
  (get_thumbnail_url_absorbs_errors netTimeout id "http://ex.com/page".toList).1
    PyExc.timeoutExc (by decide)

/-- Claim C3 -/
theorem memoized_call_at_most_one_fetch (f : Str → Option Str)
    (cache : List (Str × Option Str)) (k : Str) :
    ((memoized_call f (memoized_call f cache k).2.1 k).1 = (memoized_call f cache k).1) ∧
    (memoized_call f (memoized_call f cache k).2.1 k).2.2 = 0 ∧
    (memoized_call f cache k).2.2 + (memoized_call f (memoized_call f cache k).2.1 k).2.2 ≤ 1 := by
  rcases h : cache.find? (fun p => p.1 == k) with _ | p
  · simp [memoized_call, h, List.find?]
  · simp [memoized_call, h]

/-- Claim C5 -/
theorem find_largest_no_survivor_raises :
    find_largest_core [] = .error PyExc.typeError ∧
    find_largest_core [("http://e.com/tiny.png".toList, some (10, 10))] =
      .error PyExc.typeError := by
  constructor
  · rfl
  · decide

/-- Claim C9 counterexample -/
theorem youtube_scrape_raises_on_failure :
    (youtube_scrape netConnErr).1 = .error PyExc.connectionError ∧
    (youtube_scrape netConnErr).1 ≠ .ok none := by
  constructor
  · rfl
  · decide

/-- Claim C9 amended -/
theorem youtube_scrape_behaviour (net : Net) :
    (∀ r, net OEMBED_ENDPOINT = .ok r → r.jsonOk = true →
      (youtube_scrape net).1 =
        .ok (if r.jsonObj.isEmpty then none
             else (r.jsonObj.find? (fun p => p.1 == "thumbnail_url".toList)).map (·.2))) ∧
    (∀ e, net OEMBED_ENDPOINT = .error e → (youtube_scrape net).1 = .error e) := by
  constructor
  · intro r hr hj
    simp [youtube_scrape, _fetch_from_youtube, hr, hj]
    split <;> simp
  · intro e he
    simp [youtube_scrape, _fetch_from_youtube, he]

/-- witness C9 -/
theorem youtube_scrape_behaviour_witness :
    (youtube_scrape netOembedOk).1 =
      .ok (some "https://i.ytimg.com/vi/x/hq.jpg".toList) := by
  have h := (youtube_scrape_behaviour netOembedOk).1
    { contentType := some "application/json".toList, bodyNonempty := true,
      soup := emptySoup, imageSize := none, jsonOk := true,
      jsonObj := [("title".toList, "a video".toList),
                  ("thumbnail_url".toList, "https://i.ytimg.com/vi/x/hq.jpg".toList)] }
    rfl rfl
  rw [h]
  decide

/-- The provider scraper always issues exactly one request: the oEmbed
endpoint GET. -/
theorem youtube_scrape_trace (net : Net) :
    (youtube_scrape net).2 = [OEMBED_ENDPOINT] := by
  unfold youtube_scrape _fetch_from_youtube
  cases hn : net OEMBED_ENDPOINT with
  | error e => simp
  | ok r =>
    by_cases hj : r.jsonOk = true
    · simp only [hj, if_true]
      split <;> rfl
    · simp only [Bool.not_eq_true] at hj
      simp [hj]

/-- Claim C8 -/
theorem for_url_dispatch (net : Net) (absolutify : Str → Str) (url : Str) :
    (for_url url true = .youtubeScraper ↔ youtube_matches url = true) ∧
    (youtube_matches url = false → for_url url true = .thumbnailOnlyScraper) ∧
    (youtube_matches url = true →
      (scraper_scrape net absolutify url).2 = [OEMBED_ENDPOINT]) := by
  refine ⟨?_, ?_, ?_⟩
  · cases h : youtube_matches url <;> simp [for_url, h]
  · intro h; simp [for_url, h]
  · intro h
    simp only [scraper_scrape, h, if_true]
    exact youtube_scrape_trace net

/-- witness C8 -/
theorem for_url_dispatch_witness :
    youtube_matches "https://youtu.be/dQw4w9WgXcQ".toList = true ∧
    (scraper_scrape netUrlErr id "https://youtu.be/dQw4w9WgXcQ".toList).2 =
      [OEMBED_ENDPOINT] := by
  refine ⟨by decide, ?_⟩
  exact (for_url_dispatch netUrlErr id "https://youtu.be/dQw4w9WgXcQ".toList).2.2 (by decide)

/-! ## The largest-image heuristic: filters and maximality (claim C4) -/

/-- A candidate that survives the heuristic's filters: it has a resolvable
size, raw pixel area at least 5000, and aspect `max/min` at most 2. -/
def survives (c : Str × Option (Nat × Nat)) : Bool :=
  match c.2 with
  | none => false
  | some wh =>
    !(decide (((wh.1 * wh.2 : Nat) : Rat) < 5000)) &&
    !(decide (((max wh.1 wh.2 : Nat) : Rat) / ((min wh.1 wh.2 : Nat) : Rat) > 2))

/-- The score of a candidate: its pixel area, divided by 10 when the URL
contains "sprite" case-insensitively. -/
def score (c : Str × Option (Nat × Nat)) : Rat :=
  match c.2 with
  | none => 0
  | some wh =>
    if spriteIn c.1 then ((wh.1 * wh.2 : Nat) : Rat) / 10
    else ((wh.1 * wh.2 : Nat) : Rat)

theorem largest_step_skip (acc : Rat × Option Str) (c : Str × Option (Nat × Nat))
    (h : survives c = false) : largest_step acc c = acc := by
  unfold largest_step
  unfold survives at h
  rcases c with ⟨u, _ | wh⟩
  · rfl
  · simp only at h ⊢
    rcases Bool.and_eq_false_iff.mp h with h1 | h2
    · rw [if_pos]
      simpa using h1
    · by_cases harea : ((wh.1 * wh.2 : Nat) : Rat) < 5000
      · rw [if_pos harea]
      · rw [if_neg harea, if_pos]
        simpa using h2

theorem largest_step_update (acc : Rat × Option Str) (c : Str × Option (Nat × Nat))
    (h : survives c = true) :
    largest_step acc c = if acc.1 < score c then (score c, some c.1) else acc := by
  unfold largest_step survives at *
  rcases c with ⟨u, _ | wh⟩
  · simp at h
  · simp only [Bool.and_eq_true, Bool.not_eq_true', decide_eq_false_iff_not] at h
    simp only [score, if_neg h.1, if_neg h.2]

theorem survives_score_pos (c : Str × Option (Nat × Nat))
    (h : survives c = true) : 0 < score c := by
  unfold survives at h
  rcases c with ⟨u, _ | wh⟩
  · simp at h
  · simp only [Bool.and_eq_true, Bool.not_eq_true', decide_eq_false_iff_not] at h
    have h5 : (5000 : Rat) ≤ ((wh.1 * wh.2 : Nat) : Rat) := not_lt.mp h.1
    have hpos : (0 : Rat) < ((wh.1 * wh.2 : Nat) : Rat) := lt_of_lt_of_le (by norm_num) h5
    unfold score
    simp only
    split
    · positivity
    · exact hpos

/-- Fold invariant for `largest_step`: the accumulator's area only grows,
dominates every surviving candidate seen, and its URL, when it changes, is
that of a surviving candidate achieving exactly the accumulated area. -/
theorem foldl_largest_inv (L : List (Str × Option (Nat × Nat))) :
    ∀ acc : Rat × Option Str,
    acc.1 ≤ (L.foldl largest_step acc).1 ∧
    (∀ c ∈ L, survives c = true → score c ≤ (L.foldl largest_step acc).1) ∧
    (L.foldl largest_step acc = acc ∨
      ∃ c ∈ L, survives c = true ∧
        (L.foldl largest_step acc).1 = score c ∧
        (L.foldl largest_step acc).2 = some c.1) := by
  induction L with
  | nil => intro acc; exact ⟨le_refl _, by simp, Or.inl rfl⟩
  | cons c rest ih =>
    intro acc
    have hfold : (c :: rest).foldl largest_step acc =
        rest.foldl largest_step (largest_step acc c) := rfl
    rcases ih (largest_step acc c) with ⟨ih1, ih2, ih3⟩
    by_cases hs : survives c = true
    · rw [largest_step_update acc c hs] at ih1 ih2 ih3
      by_cases hlt : acc.1 < score c
      · rw [if_pos hlt] at ih1 ih2 ih3
        refine ⟨?_, ?_, ?_⟩
        · rw [hfold, largest_step_update acc c hs, if_pos hlt]
          exact le_trans (le_of_lt hlt) ih1
        · intro c' hc' hs'
          rcases List.mem_cons.mp hc' with rfl | hmem
          · rw [hfold, largest_step_update acc c' hs, if_pos hlt]
            exact ih1
          · rw [hfold, largest_step_update acc c hs, if_pos hlt]
            exact ih2 c' hmem hs'
        · rw [hfold, largest_step_update acc c hs, if_pos hlt]
          rcases ih3 with heq | ⟨c', hc', hs', h1, h2⟩
          · exact Or.inr ⟨c, List.mem_cons_self c rest, hs, by rw [heq], by rw [heq]⟩
          · exact Or.inr ⟨c', List.mem_cons_of_mem c hc', hs', h1, h2⟩
      · rw [if_neg hlt] at ih1 ih2 ih3
        refine ⟨?_, ?_, ?_⟩
        · rw [hfold, largest_step_update acc c hs, if_neg hlt]
          exact ih1
        · intro c' hc' hs'
          rcases List.mem_cons.mp hc' with rfl | hmem
          · rw [hfold, largest_step_update acc c' hs, if_neg hlt]
            exact le_trans (not_lt.mp hlt) ih1
          · rw [hfold, largest_step_update acc c hs, if_neg hlt]
            exact ih2 c' hmem hs'
        · rw [hfold, largest_step_update acc c hs, if_neg hlt]
          rcases ih3 with heq | ⟨c', hc', hs', h1, h2⟩
          · exact Or.inl heq
          · exact Or.inr ⟨c', List.mem_cons_of_mem c hc', hs', h1, h2⟩
    · have hskip := largest_step_skip acc c (Bool.not_eq_true _ ▸ (by simpa using hs))
      rw [hskip] at ih1 ih2 ih3
      refine ⟨?_, ?_, ?_⟩
      · rw [hfold, hskip]; exact ih1
      · intro c' hc' hs'
        rcases List.mem_cons.mp hc' with rfl | hmem
        · exact absurd hs' hs
        · rw [hfold, hskip]; exact ih2 c' hmem hs'
      · rw [hfold, hskip]
        rcases ih3 with heq | ⟨c', hc', hs', h1, h2⟩
        · exact Or.inl heq
        · exact Or.inr ⟨c', List.mem_cons_of_mem c hc', hs', h1, h2⟩

/-- Claim C4 -/
theorem find_largest_picks_max :
    (∀ (L : List (Str × Option (Nat × Nat))) (u : Str),
      find_largest_core L = .ok (some u) →
      ∃ c ∈ L, c.1 = u ∧ survives c = true ∧
        ∀ c' ∈ L, survives c' = true → score c' ≤ score c) ∧
    find_largest_core
      [("http://e.com/small.png".toList, some (80, 50)),
       ("http://e.com/medium.png".toList, some (100, 60)),
       ("http://e.com/wide.png".toList, some (150, 400))] =
      .ok (some "http://e.com/medium.png".toList) ∧
    find_largest_core
      [("http://e.com/spritesheet.png".toList, some (200, 100)),
       ("http://e.com/photo.png".toList, some (200, 100))] =
      .ok (some "http://e.com/photo.png".toList) := by
  refine ⟨?_, by with_unfolding_all decide, by with_unfolding_all decide⟩
  intro L u h
  obtain ⟨h1, h2, hcase⟩ := foldl_largest_inv L ((0 : Rat), (none : Option Str))
  unfold find_largest_core largest_finish at h
  rcases h3 : L.foldl largest_step ((0 : Rat), (none : Option Str)) with ⟨A, mu⟩
  rw [h3] at h h1 h2 hcase
  rcases mu with _ | u'
  · simp at h
  · have hu : u' = u := by simpa using h
    subst hu
    rcases hcase with heq | ⟨c, hc, hs, hsc1, hsc2⟩
    · exact absurd (congrArg Prod.snd heq) (by simp)
    · simp only at hsc1 hsc2
      have hcu : c.1 = u' := by
        have := hsc2.symm
        simpa using this
      refine ⟨c, hc, hcu, hs, ?_⟩
      intro c' hc' hs'
      have := h2 c' hc' hs'
      simp only at this
      rw [← hsc1]
      exact this

/-- witness C4 -/
theorem find_largest_picks_max_witness :
    ∃ c ∈ [(("http://e.com/spritesheet.png".toList : Str), some ((200 : Nat), (100 : Nat))),
           ("http://e.com/photo.png".toList, some (200, 100))],
      c.1 = "http://e.com/photo.png".toList ∧ survives c = true ∧
      ∀ c' ∈ [(("http://e.com/spritesheet.png".toList : Str), some ((200 : Nat), (100 : Nat))),
              ("http://e.com/photo.png".toList, some (200, 100))],
        survives c' = true → score c' ≤ score c :=
  find_largest_picks_max.1 _ _ (by with_unfolding_all decide)

/-! ## Outbound-request gating (claim C1) -/

/-- Does a request target begin with `http://` or `https://`? -/
def is_http_like (r : Str) : Bool :=
  py_startswith r "http://".toList || py_startswith r "https://".toList

theorem initialize_request_gated (url u : Str)
    (h : _initialize_request url = some u) : is_http_like u = true := by
  unfold _initialize_request at h
  by_cases hg : (py_startswith (_clean_url url) "http://".toList ||
      py_startswith (_clean_url url) "https://".toList) = true
  · rw [if_pos hg] at h
    have hu := Option.some.inj h
    rw [← hu]
    exact hg
  · rw [if_neg hg] at h
    cases h

theorem fetch_url_trace (net : Net) (url : Str) :
    ∀ r ∈ (_fetch_url net url).2, is_http_like r = true := by
  intro r hr
  unfold _fetch_url at hr
  cases hi : _initialize_request url with
  | none => simp only [hi] at hr; simp at hr
  | some u =>
    simp only [hi] at hr
    cases hn : net u with
    | error e =>
      simp only [hn] at hr
      simp at hr
      rw [hr]
      exact initialize_request_gated url u hi
    | ok resp =>
      simp only [hn] at hr
      simp at hr
      rw [hr]
      exact initialize_request_gated url u hi

theorem fetch_image_size_trace (net : Net) (url : Str) :
    ∀ r ∈ (_fetch_image_size net url).2, is_http_like r = true := by
  intro r hr
  unfold _fetch_image_size at hr
  cases hi : _initialize_request url with
  | none => simp only [hi] at hr; simp at hr
  | some u =>
    simp only [hi] at hr
    cases hn : net u with
    | error e =>
      simp only [hn] at hr
      cases e <;> simp at hr <;> (rw [hr]; exact initialize_request_gated url u hi)
    | ok resp =>
      simp only [hn] at hr
      simp at hr
      rw [hr]
      exact initialize_request_gated url u hi

theorem largest_loop_trace (net : Net) (absolutify : Str → Str)
    (protocol referer : Str) :
    ∀ (srcs : List Str) (acc : Rat × Option Str) (r : Str),
      r ∈ (largest_loop net absolutify protocol referer srcs acc).2 →
      is_http_like r = true := by
  intro srcs
  induction srcs with
  | nil => intro acc r hr; simp [largest_loop] at hr
  | cons src rest ih =>
    intro acc r hr
    unfold largest_loop at hr
    rcases hfi : _fetch_image_size net (coerce_image_url absolutify protocol src)
      with ⟨res, t⟩
    simp only [hfi] at hr
    have htr : ∀ x ∈ t, is_http_like x = true := by
      intro x hx
      have := fetch_image_size_trace net (coerce_image_url absolutify protocol src) x
      rw [hfi] at this
      exact this hx
    rcases res with e | size
    · exact htr r hr
    · simp only [List.mem_append] at hr
      rcases hr with hr | hr
      · exact htr r hr
      · exact ih _ r hr

theorem thumbnail_only_scrape_trace (net : Net) (absolutify : Str → Str)
    (url : Str) :
    ∀ r ∈ (thumbnail_only_scrape net absolutify url).2, is_http_like r = true := by
  intro r hr
  unfold thumbnail_only_scrape at hr
  rcases hf : _fetch_url net url with ⟨res, t⟩
  simp only [hf] at hr
  have htr : ∀ x ∈ t, is_http_like x = true := by
    intro x hx
    have := fetch_url_trace net url x
    rw [hf] at this
    exact this hx
  rcases res with e | ⟨ct, content⟩
  · exact htr r hr
  · rcases content with _ | resp
    · exact htr r hr
    · dsimp only at hr
      by_cases h1 : (content_type_has ct "image".toList && resp.bodyNonempty) = true
      · rw [if_pos h1] at hr
        exact htr r hr
      · rw [if_neg h1] at hr
        by_cases h2 : (content_type_has ct "html".toList && resp.bodyNonempty) = true
        · rw [if_pos h2] at hr
          rcases hog : _scrape_og_url absolutify resp.soup with _ | v
          · rw [hog] at hr
            rcases hts : _scrape_thumbnail_spec absolutify resp.soup with e | v'
            · rw [hts] at hr
              exact htr r hr
            · rw [hts] at hr
              rcases v' with _ | w
              · simp only [List.mem_append] at hr
                rcases hr with hr | hr
                · exact htr r hr
                · exact largest_loop_trace net absolutify
                    (py_urlparse url).scheme url resp.soup.imgSrcs (0, none) r hr
              · exact htr r hr
          · rw [hog] at hr
            exact htr r hr
        · rw [if_neg h2] at hr
          exact htr r hr

theorem scraper_scrape_trace (net : Net) (absolutify : Str → Str) (url : Str) :
    ∀ r ∈ (scraper_scrape net absolutify url).2, is_http_like r = true := by
  intro r hr
  unfold scraper_scrape at hr
  by_cases hm : youtube_matches url = true
  · rw [if_pos hm] at hr
    rw [youtube_scrape_trace net] at hr
    simp at hr
    rw [hr]
    decide
  · rw [if_neg hm] at hr
    exact thumbnail_only_scrape_trace net absolutify url r hr

theorem get_url_trace_eq (net : Net) (absolutify : Str → Str) (url : Str) :
    (get_url net absolutify url).2 = (scraper_scrape net absolutify url).2 := by
  unfold get_url
  rcases hs : scraper_scrape net absolutify url with ⟨res, t⟩
  rcases res with e | v
  · cases e <;> rfl
  · rfl

theorem get_thumbnail_url_trace_eq (net : Net) (absolutify : Str → Str)
    (url : Str) :
    (get_thumbnail_url net absolutify url).2 = (get_url net absolutify url).2 := by
  unfold get_thumbnail_url
  rcases hs : get_url net absolutify url with ⟨res, t⟩
  rcases res with e | v <;> rfl

/-- Claim C1 amended -/
theorem outbound_requests_http_gated (net : Net) (absolutify : Str → Str)
    (url : Str) :
    ∀ r ∈ (get_thumbnail_url net absolutify url).2, is_http_like r = true := by
  intro r hr
  rw [get_thumbnail_url_trace_eq, get_url_trace_eq] at hr
  exact scraper_scrape_trace net absolutify url r hr

/-- witness C1 amended -/
theorem outbound_requests_http_gated_witness :
    is_http_like "http://e.com/a\\b".toList = true :=
  outbound_requests_http_gated netUrlErr id "http://e.com/a\\b".toList
    "http://e.com/a\\b".toList (by decide)

/-- Claim C1 counterexample -/
theorem unsafe_url_still_fetched :
    is_web_safe_url "http://e.com/a\\b".toList = false ∧
    (get_thumbnail_url netUrlErr id "http://e.com/a\\b".toList).2 =
      ["http://e.com/a\\b".toList] := by
  constructor
  · decide
  · decide

/-! ## Heuristic priority (claim C6) -/

/-- A page whose head declares `og:image` and whose body embeds a larger
image. -/
def c6soup : Soup :=
  { metas := [{ prop := some "og:image".toList, nameAttr := none,
                content := some "http://e.com/og.png".toList }],
    links := [],
    imgSrcs := ["http://e.com/big.png".toList] }

/-- The page URL of the concrete priority example. -/
def c6page : Str := "http://page.example/".toList

/-- Oracle for the priority example: the page is HTML parsed to `c6soup`;
every other URL serves a large 2000×2000 image. -/
def c6net : Net := fun u =>
  if u = c6page then
    .ok { contentType := some "text/html".toList, bodyNonempty := true,
          soup := c6soup, imageSize := none, jsonOk := true, jsonObj := [] }
  else
    .ok { contentType := some "image/png".toList, bodyNonempty := true,
          soup := emptySoup, imageSize := some (2000, 2000), jsonOk := true,
          jsonObj := [] }

/-- Claim C6 -/
theorem scrape_heuristic_priority (net : Net) (absolutify : Str → Str)
    (url ureq : Str) (resp : NetResponse)
    (hreq : _initialize_request url = some ureq)
    (hnet : net ureq = .ok resp)
    (himg : content_type_has resp.contentType "image".toList = false)
    (hhtml : content_type_has resp.contentType "html".toList = true)
    (hbody : resp.bodyNonempty = true) :
    (∀ r, _scrape_og_url absolutify resp.soup = some r →
      (thumbnail_only_scrape net absolutify url).1 = .ok (some r)) ∧
    (_scrape_og_url absolutify resp.soup = none →
      ∀ r, _scrape_thumbnail_spec absolutify resp.soup = .ok (some r) →
        (thumbnail_only_scrape net absolutify url).1 = .ok (some r)) ∧
    (_scrape_og_url absolutify resp.soup = none →
      _scrape_thumbnail_spec absolutify resp.soup = .ok none →
      (thumbnail_only_scrape net absolutify url).1 =
        (largest_loop net absolutify (py_urlparse url).scheme url
          resp.soup.imgSrcs (0, none)).1) ∧
    ((thumbnail_only_scrape c6net id c6page).1 =
        .ok (some "http://e.com/og.png".toList) ∧
      (thumbnail_only_scrape c6net id c6page).2 = [c6page]) := by
  have hfetch : _fetch_url net url = (.ok (resp.contentType, some resp), [ureq]) := by
    unfold _fetch_url
    simp only [hreq, hnet]
  refine ⟨?_, ?_, ?_, by constructor <;> decide⟩
  · intro r hog
    unfold thumbnail_only_scrape
    simp only [hfetch]
    simp only [himg, hbody, hhtml, Bool.false_and, Bool.and_self,
      Bool.true_and, Bool.and_true, if_false, if_true, hog]
    simp
  · intro hog r hts
    unfold thumbnail_only_scrape
    simp only [hfetch]
    simp only [himg, hbody, hhtml, Bool.false_and, Bool.and_self,
      Bool.true_and, Bool.and_true, if_false, if_true, hog, hts]
    simp
  · intro hog hts
    unfold thumbnail_only_scrape
    simp only [hfetch]
    simp only [himg, hbody, hhtml, Bool.false_and, Bool.and_self,
      Bool.true_and, Bool.and_true, if_false, if_true, hog, hts]
    simp

/-- witness C6 -/
theorem scrape_heuristic_priority_witness :
    (thumbnail_only_scrape c6net id c6page).1 =
      .ok (some "http://e.com/og.png".toList) :=
  (scrape_heuristic_priority c6net id c6page c6page
    { contentType := some "text/html".toList, bodyNonempty := true,
      soup := c6soup, imageSize := none, jsonOk := true, jsonObj := [] }
    (by decide) (by decide) (by decide) (by decide) (by decide)).1
    "http://e.com/og.png".toList (by decide)

/-! ## `set_extension` round trips (claim C10) -/

theorem splitOnP_sep_false {α : Type} (p : α → Bool) :
    ∀ (xs : List α), ∀ l ∈ xs.splitOnP p, ∀ a ∈ l, p a = false := by
  intro xs
  induction xs with
  | nil =>
    intro l hl a ha
    simp only [List.splitOnP_nil, List.mem_singleton] at hl
    subst hl
    simp at ha
  | cons x xs ih =>
    intro l hl a ha
    rw [List.splitOnP_cons] at hl
    by_cases hp : p x = true
    · rw [if_pos hp] at hl
      rcases List.mem_cons.mp hl with rfl | hl'
      · simp at ha
      · exact ih l hl' a ha
    · rw [if_neg hp] at hl
      rcases hsp : xs.splitOnP p with _ | ⟨h, t⟩
      · exact absurd hsp (List.splitOnP_ne_nil p xs)
      · rw [hsp] at hl
        simp only [List.modifyHead] at hl
        rcases List.mem_cons.mp hl with rfl | hl'
        · rcases List.mem_cons.mp ha with rfl | ha'
          · simpa using hp
          · exact ih h (by rw [hsp]; exact List.mem_cons_self h t) a ha'
        · exact ih l (by rw [hsp]; exact List.mem_cons_of_mem h hl') a ha

theorem splitOn_sep_not_mem {α : Type} [DecidableEq α] (x : α) (xs : List α) :
    ∀ l ∈ xs.splitOn x, x ∉ l := by
  intro l hl hx
  have := splitOnP_sep_false (fun a => a == x) xs l
    (by simpa [List.splitOn] using hl) x hx
  simp at this

theorem mem_intersperse_of_mem {β : Type} {x : β} (sep : β) :
    ∀ (ls : List β), x ∈ ls → x ∈ ls.intersperse sep := by
  intro ls
  induction ls with
  | nil => simp
  | cons a rest ih =>
    intro hx
    rcases rest with _ | ⟨b, rest'⟩
    · simpa using hx
    · rw [List.intersperse_cons_cons]
      rcases List.mem_cons.mp hx with rfl | hx'
      · exact List.mem_cons_self _ _
      · exact List.mem_cons_of_mem _ (List.mem_cons_of_mem _ (ih hx'))

theorem mem_of_mem_splitOn {α : Type} [DecidableEq α] {a x : α} {l xs : List α}
    (hl : l ∈ xs.splitOn x) (ha : a ∈ l) : a ∈ xs := by
  have : a ∈ [x].intercalate (xs.splitOn x) := by
    simp only [List.intercalate]
    exact List.mem_flatten.mpr ⟨l, mem_intersperse_of_mem [x] _ hl, ha⟩
  rwa [List.intercalate_splitOn xs x] at this

theorem mem_intercalate_cases {α : Type} (s : List α) :
    ∀ (ls : List (List α)) (a : α), a ∈ List.intercalate s ls →
      a ∈ s ∨ ∃ l ∈ ls, a ∈ l := by
  intro ls
  induction ls with
  | nil => intro a ha; simp [List.intercalate] at ha
  | cons l₁ rest ih =>
    intro a ha
    rcases rest with _ | ⟨l₂, rest'⟩
    · refine Or.inr ⟨l₁, by simp, ?_⟩
      simpa [List.intercalate, List.intersperse] using ha
    · have hc : List.intercalate s (l₁ :: l₂ :: rest') =
          l₁ ++ s ++ List.intercalate s (l₂ :: rest') := by
        simp [List.intercalate, List.intersperse_cons_cons, List.append_assoc]
      rw [hc] at ha
      simp only [List.append_assoc, List.mem_append] at ha
      rcases ha with h1 | h2 | h3
      · exact Or.inr ⟨l₁, by simp, h1⟩
      · exact Or.inl h2
      · rcases ih a h3 with hs | ⟨l, hl, hal⟩
        · exact Or.inl hs
        · exact Or.inr ⟨l, List.mem_cons_of_mem _ hl, hal⟩

theorem intercalate_cons_two {α : Type} (s l₁ l₂ : List α) (rest : List (List α)) :
    List.intercalate s (l₁ :: l₂ :: rest) =
      l₁ ++ s ++ List.intercalate s (l₂ :: rest) := by
  simp [List.intercalate, List.intersperse_cons_cons, List.append_assoc]

theorem intercalate_append_single {α : Type} (s : List α) :
    ∀ (as : List (List α)) (b : List α), as ≠ [] →
      List.intercalate s (as ++ [b]) = List.intercalate s as ++ s ++ b := by
  intro as
  induction as with
  | nil => intro b h; exact absurd rfl h
  | cons a rest ih =>
    intro b _
    rcases rest with _ | ⟨a', rest'⟩
    · rw [show ([a] ++ [b] : List (List α)) = [a, b] from rfl, intercalate_cons_two]
      simp [List.intercalate, List.intersperse]
    · have hcons : (a' :: rest') ++ [b] = a' :: (rest' ++ [b]) := rfl
      rw [show ((a :: a' :: rest') ++ [b] : List (List α)) =
            a :: ((a' :: rest') ++ [b]) from rfl]
      rw [hcons, intercalate_cons_two, ← hcons, ih b (by simp),
        intercalate_cons_two]
      simp [List.append_assoc]

theorem getLastD_mem_of_ne_nil {α : Type} (d : α) :
    ∀ (xs : List α), xs ≠ [] → xs.getLastD d ∈ xs := by
  intro xs h
  rcases xs with _ | ⟨a, rest⟩
  · exact absurd rfl h
  · rw [List.getLastD_cons]
    exact List.getLastD_mem_cons rest a

/-- The final path component, as `set_extension` computes it. -/
def lastPathComponent (path : Str) : Str := (path.splitOn '/').getLastD []

/-- The final path component with its final dot-segment removed — the
original path's "base name" in the spec's sense. -/
def baseNameOf (path : Str) : Str :=
  List.intercalate ['.']
    (if ((lastPathComponent path).splitOn '.').length > 1 then
      ((lastPathComponent path).splitOn '.').dropLast
    else (lastPathComponent path).splitOn '.')

theorem set_extension_path (q : UrlParser) (e : Str) :
    (q.set_extension e).path =
      List.intercalate ['/'] ((q.path.splitOn '/').dropLast ++
        [baseNameOf q.path ++ (if e.isEmpty then [] else '.' :: e)]) := by
  simp only [UrlParser.set_extension, baseNameOf, lastPathComponent]
  by_cases he : e.isEmpty
  · simp [he]
  · simp only [Bool.not_eq_true] at he
    simp [he]

/-- Claim C10 amended -/
theorem set_extension_roundtrip (p : UrlParser) (ext : Str)
    (hne : ext ≠ []) (hdot : '.' ∉ ext) (hslash : '/' ∉ ext) :
    (p.set_extension ext).set_extension [] = p.set_extension [] ∧
    lastPathComponent ((p.set_extension ext).set_extension []).path =
      baseNameOf p.path := by
  have hie : ext.isEmpty = false := by
    cases ext with
    | nil => exact absurd rfl hne
    | cons a l => rfl
  -- the last path component and its dot-parts
  have hpieces_ne : p.path.splitOn '/' ≠ [] := by
    simpa [List.splitOn] using List.splitOnP_ne_nil (fun c => c == '/') p.path
  have hlast_mem : (p.path.splitOn '/').getLastD [] ∈ p.path.splitOn '/' :=
    getLastD_mem_of_ne_nil [] _ hpieces_ne
  have hlast_noslash : '/' ∉ (p.path.splitOn '/').getLastD [] :=
    splitOn_sep_not_mem '/' p.path _ hlast_mem
  have hparts_ne : ((p.path.splitOn '/').getLastD []).splitOn '.' ≠ [] := by
    simpa [List.splitOn] using
      List.splitOnP_ne_nil (fun c => c == '.') ((p.path.splitOn '/').getLastD [])
  have hsp_sub : ∀ l ∈ (if (((p.path.splitOn '/').getLastD []).splitOn '.').length > 1 then
        (((p.path.splitOn '/').getLastD []).splitOn '.').dropLast
      else ((p.path.splitOn '/').getLastD []).splitOn '.'),
      l ∈ ((p.path.splitOn '/').getLastD []).splitOn '.' := by
    intro l hl
    split at hl
    · exact List.mem_of_mem_dropLast hl
    · exact hl
  have hsp_ne : (if (((p.path.splitOn '/').getLastD []).splitOn '.').length > 1 then
        (((p.path.splitOn '/').getLastD []).splitOn '.').dropLast
      else ((p.path.splitOn '/').getLastD []).splitOn '.') ≠ [] := by
    split
    · next hlen =>
      intro hnil
      have hlen' := List.length_dropLast (((p.path.splitOn '/').getLastD []).splitOn '.')
      rw [hnil] at hlen'
      simp only [List.length_nil] at hlen'
      omega
    · exact hparts_ne
  have hsp_nodot : ∀ l ∈ (if (((p.path.splitOn '/').getLastD []).splitOn '.').length > 1 then
        (((p.path.splitOn '/').getLastD []).splitOn '.').dropLast
      else ((p.path.splitOn '/').getLastD []).splitOn '.'),
      '.' ∉ l := fun l hl =>
    splitOn_sep_not_mem '.' _ l (hsp_sub l hl)
  -- the stripped base name
  have hS_noslash : '/' ∉ baseNameOf p.path := by
    intro hmem
    unfold baseNameOf lastPathComponent at hmem
    rcases mem_intercalate_cases ['.'] _ '/' hmem with h1 | ⟨l, hl, hal⟩
    · simp at h1
    · exact hlast_noslash (mem_of_mem_splitOn (hsp_sub l hl) hal)
  have hS_eq : baseNameOf p.path =
      List.intercalate ['.']
        (if (((p.path.splitOn '/').getLastD []).splitOn '.').length > 1 then
          (((p.path.splitOn '/').getLastD []).splitOn '.').dropLast
        else ((p.path.splitOn '/').getLastD []).splitOn '.') := rfl
  have hdirs_noslash : ∀ l ∈ (p.path.splitOn '/').dropLast ++
      [baseNameOf p.path ++ '.' :: ext], '/' ∉ l := by
    intro l hl
    rcases List.mem_append.mp hl with hl | hl
    · exact splitOn_sep_not_mem '/' p.path l (List.mem_of_mem_dropLast hl)
    · rcases List.mem_singleton.mp hl with rfl
      intro hmem
      rcases List.mem_append.mp hmem with h1 | h2
      · exact hS_noslash h1
      · rcases List.mem_cons.mp h2 with h3 | h4
        · cases h3
        · exact hslash h4
  -- split of the once-extended path
  have hsplit1 : ((p.set_extension ext).path).splitOn '/' =
      (p.path.splitOn '/').dropLast ++ [baseNameOf p.path ++ '.' :: ext] := by
    rw [set_extension_path, hie]
    simp only [Bool.false_eq_true, if_false]
    exact List.splitOn_intercalate _ '/' hdirs_noslash (by simp)
  -- dot-split of the extended base
  have hbase1 : baseNameOf p.path ++ '.' :: ext =
      List.intercalate ['.']
        ((if (((p.path.splitOn '/').getLastD []).splitOn '.').length > 1 then
          (((p.path.splitOn '/').getLastD []).splitOn '.').dropLast
        else ((p.path.splitOn '/').getLastD []).splitOn '.') ++ [ext]) := by
    rw [intercalate_append_single ['.'] _ ext hsp_ne, ← hS_eq]
    simp
  have hsplit2 : (baseNameOf p.path ++ '.' :: ext).splitOn '.' =
      (if (((p.path.splitOn '/').getLastD []).splitOn '.').length > 1 then
        (((p.path.splitOn '/').getLastD []).splitOn '.').dropLast
      else ((p.path.splitOn '/').getLastD []).splitOn '.') ++ [ext] := by
    rw [hbase1]
    refine List.splitOn_intercalate _ '.' ?_ (by simp)
    intro l hl
    rcases List.mem_append.mp hl with hl | hl
    · exact hsp_nodot l hl
    · rcases List.mem_singleton.mp hl with rfl
      exact hdot
  -- the double application, path-level
  have hpath2 : ((p.set_extension ext).set_extension []).path =
      List.intercalate ['/'] ((p.path.splitOn '/').dropLast ++ [baseNameOf p.path]) := by
    rw [set_extension_path]
    simp only [List.isEmpty_nil, if_true, List.append_nil]
    unfold baseNameOf lastPathComponent
    rw [hsplit1]
    rw [List.dropLast_concat, List.getLastD_concat, hsplit2]
    have hlen2 : ((if (((p.path.splitOn '/').getLastD []).splitOn '.').length > 1 then
          (((p.path.splitOn '/').getLastD []).splitOn '.').dropLast
        else ((p.path.splitOn '/').getLastD []).splitOn '.') ++ [ext]).length > 1 := by
      rw [List.length_append]
      have hpos := List.length_pos.mpr hsp_ne
      simp only [List.length_singleton]
      omega
    rw [if_pos hlen2, List.dropLast_concat]
  have hpath3 : (p.set_extension []).path =
      List.intercalate ['/'] ((p.path.splitOn '/').dropLast ++ [baseNameOf p.path]) := by
    rw [set_extension_path]
    simp [List.append_nil]
  constructor
  · have h1 : (p.set_extension ext).set_extension [] =
        { p with path := ((p.set_extension ext).set_extension []).path } := rfl
    have h2 : p.set_extension [] = { p with path := (p.set_extension []).path } := rfl
    rw [h1, h2, hpath2, hpath3]
  · rw [hpath2]
    unfold lastPathComponent
    have hsplit3 : (List.intercalate ['/']
        ((p.path.splitOn '/').dropLast ++ [baseNameOf p.path])).splitOn '/' =
        (p.path.splitOn '/').dropLast ++ [baseNameOf p.path] := by
      refine List.splitOn_intercalate _ '/' ?_ (by simp)
      intro l hl
      rcases List.mem_append.mp hl with hl | hl
      · exact splitOn_sep_not_mem '/' p.path l (List.mem_of_mem_dropLast hl)
      · rcases List.mem_singleton.mp hl with rfl
        exact hS_noslash
    rw [hsplit3, List.getLastD_concat]

/-- witness C10 amended -/
theorem set_extension_roundtrip_witness :
    ((UrlParser.ofUrl "http://e.com/photo.jpg".toList).set_extension
        "png".toList).set_extension [] =
      (UrlParser.ofUrl "http://e.com/photo.jpg".toList).set_extension [] :=
  (set_extension_roundtrip (UrlParser.ofUrl "http://e.com/photo.jpg".toList)
    "png".toList (by decide) (by decide) (by decide)).1

/-- Claim C10 counterexample -/
theorem set_extension_dotted_ext_cex :
    lastPathComponent ((((UrlParser.ofUrl "http://e.com/photo".toList).set_extension
        "tar.gz".toList).set_extension []).path) = "photo.tar".toList ∧
    baseNameOf (UrlParser.ofUrl "http://e.com/photo".toList).path =
      "photo".toList ∧
    "photo.tar".toList ≠ "photo".toList := by
  refine ⟨by decide, by decide, by decide⟩

/-! ## Round-trip serialization (claim C7) -/

/-- Lowercase ASCII letters: the alphabet of a well-formed scheme. -/
def lowerAlpha : Str := "abcdefghijklmnopqrstuvwxyz".toList

/-- Characters of a well-formed host. -/
def hostChars : Str := "abcdefghijklmnopqrstuvwxyz0123456789.-".toList

/-- Characters of a well-formed path. -/
def pathChars : Str :=
  ("abcdefghijklmnopqrstuvwxyzABCDEFGHIJKLMNOPQRSTUVWXYZ0123456789" ++
   "/._-~%+:,()@!*").toList

/-- Acceptable characters of a well-formed query: printable ASCII except
`#`. -/
def queryChar (c : Char) : Bool :=
  (0x20 ≤ c.toNat && c.toNat ≤ 0x7E) && !(c == '#')

/-- Acceptable characters of a fragment: printable ASCII. -/
def fragChar (c : Char) : Bool := 0x20 ≤ c.toNat && c.toNat ≤ 0x7E

/-- A well-formed absolute URL assembled from its components. -/
def buildUrl (scheme host path query fragment : Str) : Str :=
  scheme ++ (':' :: '/' :: '/' :: (host ++ (path ++
    ((if query.isEmpty then [] else '?' :: query) ++
     (if fragment.isEmpty then [] else '#' :: fragment)))))

theorem takeWhile_append_all {p : Char → Bool} :
    ∀ (xs ys : Str), (∀ x ∈ xs, p x = true) →
      (xs ++ ys).takeWhile p = xs ++ ys.takeWhile p ∧
      (xs ++ ys).dropWhile p = ys.dropWhile p := by
  intro xs
  induction xs with
  | nil => intro ys _; simp
  | cons a l ih =>
    intro ys hall
    have ha : p a = true := hall a (List.mem_cons_self a l)
    have ihl := ih ys (fun x hx => hall x (List.mem_cons_of_mem a hx))
    simp only [List.cons_append, List.takeWhile_cons, List.dropWhile_cons, ha,
      if_true, ihl.1, ihl.2]
    constructor <;> trivial

theorem takeWhile_head_stop {p : Char → Bool} (ys : Str)
    (h : ∀ y ∈ ys.head?, p y = false) :
    ys.takeWhile p = [] ∧ ys.dropWhile p = ys := by
  cases ys with
  | nil => simp
  | cons a l =>
    have ha : p a = false := h a rfl
    simp [List.takeWhile_cons, List.dropWhile_cons, ha]

theorem sanitizeUrl_eq_self (s : Str)
    (hh : ∀ c ∈ s.head?, c0OrSpace c = false)
    (hf : ∀ c ∈ s, (!(c == '\t' || c == '\r' || c == '\n')) = true) :
    sanitizeUrl s = s := by
  unfold sanitizeUrl
  have hd : s.dropWhile c0OrSpace = s := by
    cases s with
    | nil => rfl
    | cons a l =>
      have := hh a rfl
      simp [List.dropWhile_cons, this]
  rw [hd, List.filter_eq_self.mpr hf]

theorem py_contains_cons (a : Char) (l n : Str) :
    py_contains (a :: l) n = (n.isPrefixOf (a :: l) || py_contains l n) := by
  simp [py_contains]

theorem replaceDslash_singleton (a : Char) : replaceDslash [a] = [a] := by
  rw [replaceDslash.eq_def]
  split
  · next heq =>
    exfalso
    injection heq with h1 h2
    cases h2
  · next c r heq =>
    injection heq with h1 h2
    rw [h1, ← h2]
    rfl
  · next heq => cases heq

theorem replaceDslash_id : ∀ (s : Str),
    py_contains s ['/', '/'] = false → replaceDslash s = s := by
  intro s
  induction s with
  | nil => intro _; rfl
  | cons a rest ih =>
    intro h
    have hrest : py_contains rest ['/', '/'] = false := by
      rw [py_contains_cons] at h
      exact (Bool.or_eq_false_iff.mp h).2
    rcases rest with _ | ⟨b, rest'⟩
    · exact replaceDslash_singleton a
    · by_cases hab : a = '/' ∧ b = '/'
      · exfalso
        rcases hab with ⟨rfl, rfl⟩
        rw [py_contains_cons] at h
        simp [List.isPrefixOf] at h
      · have hstep : replaceDslash (a :: b :: rest') =
            a :: replaceDslash (b :: rest') := by
          rw [replaceDslash.eq_def]
          split
          · next heq =>
            exfalso
            injection heq with h1 h2
            injection h2 with h2 h3
            exact hab ⟨h1, h2⟩
          · next c r heq =>
            injection heq with h1 h2
            rw [h1, h2]
          · next heq => cases heq
        rw [hstep, ih hrest]

theorem lowerAlpha_scheme_chars : ∀ c ∈ lowerAlpha, scheme_chars.contains c = true := by
  decide

theorem lowerAlpha_isAlpha : ∀ c ∈ lowerAlpha, c.isAlpha = true := by decide

theorem lowerAlpha_toLower : ∀ c ∈ lowerAlpha, c.toLower = c := by decide

theorem lowerAlpha_ne_colon : ∀ c ∈ lowerAlpha, (c != ':') = true := by decide

theorem lowerAlpha_clean : ∀ c ∈ lowerAlpha, c0OrSpace c = false ∧
    (!(c == '\t' || c == '\r' || c == '\n')) = true := by decide

theorem hostChars_facts : ∀ c ∈ hostChars,
    (!netlocDelim c) = true ∧ (c != ':') = true ∧ (c != '@') = true ∧
    (c != '#') = true ∧ (c != '?') = true ∧ c.toLower = c ∧
    (c != '[') = true ∧
    (!(c == '\t' || c == '\r' || c == '\n')) = true := by decide

theorem pathChars_facts : ∀ c ∈ pathChars,
    (c != '#') = true ∧ (c != '?') = true ∧ (c != ';') = true ∧
    (!(c == '\t' || c == '\r' || c == '\n')) = true := by decide

theorem printable_clean (c : Char) (h1 : 0x20 ≤ c.toNat) :
    (!(c == '\t' || c == '\r' || c == '\n')) = true := by
  have ht : (c == '\t') = false := by
    cases hc : c == '\t'
    · rfl
    · exact absurd (eq_of_beq hc ▸ h1) (by decide)
  have hr : (c == '\r') = false := by
    cases hc : c == '\r'
    · rfl
    · exact absurd (eq_of_beq hc ▸ h1) (by decide)
  have hn : (c == '\n') = false := by
    cases hc : c == '\n'
    · rfl
    · exact absurd (eq_of_beq hc ▸ h1) (by decide)
  simp [ht, hr, hn]

theorem queryChar_ne_hash (c : Char) (h : queryChar c = true) : (c != '#') = true := by
  unfold queryChar at h
  simp only [Bool.and_eq_true, Bool.not_eq_true'] at h
  simp [bne, h.2]

theorem queryChar_clean (c : Char) (h : queryChar c = true) :
    (!(c == '\t' || c == '\r' || c == '\n')) = true := by
  unfold queryChar at h
  simp only [Bool.and_eq_true, decide_eq_true_eq] at h
  exact printable_clean c h.1.1

theorem fragChar_clean (c : Char) (h : fragChar c = true) :
    (!(c == '\t' || c == '\r' || c == '\n')) = true := by
  unfold fragChar at h
  simp only [Bool.and_eq_true, decide_eq_true_eq] at h
  exact printable_clean c h.1

theorem buildUrl_clean (scheme host path query fragment : Str)
    (hs2 : ∀ c ∈ scheme, c ∈ lowerAlpha)
    (hh2 : ∀ c ∈ host, c ∈ hostChars)
    (hp2 : ∀ c ∈ path, c ∈ pathChars)
    (hq : ∀ c ∈ query, queryChar c = true)
    (hf : ∀ c ∈ fragment, fragChar c = true) :
    ∀ c ∈ buildUrl scheme host path query fragment,
      (!(c == '\t' || c == '\r' || c == '\n')) = true := by
  intro c hc
  unfold buildUrl at hc
  simp only [List.mem_append, List.mem_cons] at hc
  rcases hc with h | h | h | h | h | h | h
  · exact (lowerAlpha_clean c (hs2 c h)).2
  · subst h; decide
  · subst h; decide
  · subst h; decide
  · exact (hostChars_facts c (hh2 c h)).2.2.2.2.2.2.2
  · exact (pathChars_facts c (hp2 c h)).2.2.2
  · rcases h with h | h
    · by_cases hqe : query.isEmpty
      · rw [if_pos hqe] at h; cases h
      · rw [if_neg hqe] at h
        rcases List.mem_cons.mp h with rfl | h
        · decide
        · exact queryChar_clean c (hq c h)
    · by_cases hfe : fragment.isEmpty
      · rw [if_pos hfe] at h; cases h
      · rw [if_neg hfe] at h
        rcases List.mem_cons.mp h with rfl | h
        · decide
        · exact fragChar_clean c (hf c h)

theorem contains_iff_mem {a : Char} {l : Str} : l.contains a = true ↔ a ∈ l := by
  simp [List.contains]

theorem splitScheme_recover (scheme rest : Str) (hs1 : scheme ≠ [])
    (hs2 : ∀ c ∈ scheme, c ∈ lowerAlpha) :
    splitScheme (scheme ++ (':' :: rest)) = (scheme, rest) := by
  have hpre : (scheme ++ (':' :: rest)).takeWhile (fun c => c != ':') = scheme := by
    rw [(takeWhile_append_all scheme (':' :: rest)
      (fun x hx => lowerAlpha_ne_colon x (hs2 x hx))).1]
    simp [List.takeWhile_cons]
  have h1 : (scheme ++ (':' :: rest)).any (fun c => c == ':') = true := by
    refine List.any_eq_true.mpr ⟨':', ?_, by simp⟩
    simp
  have h2 : scheme.length > 0 := List.length_pos.mpr hs1
  have h3 : (match (scheme ++ (':' :: rest)).head? with
      | some c => c.isAlpha | none => false) = true := by
    rcases scheme with _ | ⟨c0, s'⟩
    · exact absurd rfl hs1
    · simp only [List.cons_append, List.head?]
      exact lowerAlpha_isAlpha c0 (hs2 c0 (List.mem_cons_self _ _))
  have h4 : scheme.all (fun c => scheme_chars.contains c) = true :=
    List.all_eq_true.mpr (fun c hc => lowerAlpha_scheme_chars c (hs2 c hc))
  have hlower : py_lower scheme = scheme := by
    unfold py_lower
    rw [List.map_congr_left (fun a ha => lowerAlpha_toLower a (hs2 a ha))]
    exact List.map_id scheme
  have hdrop : (scheme ++ (':' :: rest)).drop (scheme.length + 1) = rest := by
    rw [show scheme ++ (':' :: rest) = (scheme ++ [':']) ++ rest by simp,
        show scheme.length + 1 = (scheme ++ [':']).length by simp]
    exact List.drop_left _ _
  unfold splitScheme
  rw [hpre]
  rw [if_pos (by rw [h1, decide_eq_true h2, h3, h4]; rfl)]
  rw [hlower, hdrop]

theorem splitNetloc_recover (host tail : Str) (hh2 : ∀ c ∈ host, c ∈ hostChars)
    (htail : ∀ y ∈ tail.head?, netlocDelim y = true) :
    splitNetloc ('/' :: '/' :: (host ++ tail)) = (host, tail) := by
  unfold splitNetloc
  rw [if_pos (by simp [py_startswith, List.isPrefixOf])]
  have hk := takeWhile_append_all host tail
    (fun x hx => (hostChars_facts x (hh2 x hx)).1)
  have hstop := @takeWhile_head_stop (fun c => !netlocDelim c) tail
    (fun y hy => by simp [htail y hy])
  simp only [List.drop_succ_cons, List.drop_zero, hk.1, hk.2, hstop.1, hstop.2,
    List.append_nil]

theorem splitOnFirstChar_none (sep : Char) (url : Str) (h : sep ∉ url) :
    splitOnFirstChar sep url = (url, []) := by
  unfold splitOnFirstChar
  rw [if_neg]
  intro hc
  exact h (contains_iff_mem.mp hc)

theorem splitOnFirstChar_found (sep : Char) (pre post : Str)
    (h : ∀ c ∈ pre, (c != sep) = true) :
    splitOnFirstChar sep (pre ++ sep :: post) = (pre, post) := by
  unfold splitOnFirstChar
  rw [if_pos (contains_iff_mem.mpr (by simp))]
  have hk := takeWhile_append_all pre (sep :: post) h
  rw [hk.1, hk.2]
  simp [List.takeWhile_cons, List.dropWhile_cons]

theorem urlsplit_buildUrl (scheme host path query fragment : Str)
    (hs1 : scheme ≠ []) (hs2 : ∀ c ∈ scheme, c ∈ lowerAlpha)
    (hh2 : ∀ c ∈ host, c ∈ hostChars)
    (hp2 : ∀ c ∈ path, c ∈ pathChars) (hp0 : path = [] ∨ path.head? = some '/')
    (hq : ∀ c ∈ query, queryChar c = true)
    (hf : ∀ c ∈ fragment, fragChar c = true) :
    py_urlsplit (buildUrl scheme host path query fragment) =
      { scheme := scheme, netloc := host, path := path, query := query,
        fragment := fragment } := by
  have hsan : sanitizeUrl (buildUrl scheme host path query fragment) =
      buildUrl scheme host path query fragment := by
    apply sanitizeUrl_eq_self
    · intro c hchead
      rcases scheme with _ | ⟨c0, s'⟩
      · exact absurd rfl hs1
      · simp only [buildUrl, List.cons_append, List.head?, Option.mem_def,
          Option.some.injEq] at hchead
        rw [← hchead]
        exact (lowerAlpha_clean c0 (hs2 c0 (List.mem_cons_self _ _))).1
    · exact buildUrl_clean scheme host path query fragment hs2 hh2 hp2 hq hf
  have h1 : splitScheme (buildUrl scheme host path query fragment) =
      (scheme, '/' :: '/' :: (host ++ (path ++
        ((if query.isEmpty then [] else '?' :: query) ++
         (if fragment.isEmpty then [] else '#' :: fragment))))) :=
    splitScheme_recover scheme _ hs1 hs2
  have h2 : splitNetloc ('/' :: '/' :: (host ++ (path ++
        ((if query.isEmpty then [] else '?' :: query) ++
         (if fragment.isEmpty then [] else '#' :: fragment))))) =
      (host, path ++
        ((if query.isEmpty then [] else '?' :: query) ++
         (if fragment.isEmpty then [] else '#' :: fragment))) := by
    apply splitNetloc_recover host _ hh2
    intro y hy
    rcases hp0 with hpnil | hphead
    · subst hpnil
      simp only [List.nil_append] at hy
      by_cases hqe : query.isEmpty
      · rw [if_pos hqe] at hy
        simp only [List.nil_append] at hy
        by_cases hfe : fragment.isEmpty
        · rw [if_pos hfe] at hy
          cases hy
        · rw [if_neg hfe] at hy
          simp only [List.head?, Option.mem_def, Option.some.injEq] at hy
          subst hy
          rfl
      · rw [if_neg hqe] at hy
        simp only [List.cons_append, List.head?, Option.mem_def,
          Option.some.injEq] at hy
        subst hy
        rfl
    · rcases path with _ | ⟨p0, ps⟩
      · cases hphead
      · simp only [List.head?, Option.some.injEq] at hphead
        subst hphead
        simp only [List.cons_append, List.head?, Option.mem_def,
          Option.some.injEq] at hy
        subst hy
        rfl
  have hpath_nohash : ∀ c ∈ path, (c != '#') = true :=
    fun c hc => (pathChars_facts c (hp2 c hc)).1
  have hpath_noq : ∀ c ∈ path, (c != '?') = true :=
    fun c hc => (pathChars_facts c (hp2 c hc)).2.1
  have h3 : splitFragment (path ++
        ((if query.isEmpty then [] else '?' :: query) ++
         (if fragment.isEmpty then [] else '#' :: fragment))) =
      (path ++ (if query.isEmpty then [] else '?' :: query), fragment) := by
    unfold splitFragment
    by_cases hfe : fragment.isEmpty
    · rw [if_pos hfe, List.append_nil]
      have hfrag_nil : fragment = [] := List.isEmpty_iff.mp hfe
      rw [hfrag_nil]
      apply splitOnFirstChar_none
      intro hmem
      rcases List.mem_append.mp hmem with hm | hm
      · have := hpath_nohash '#' hm
        simp at this
      · by_cases hqe : query.isEmpty
        · rw [if_pos hqe] at hm; cases hm
        · rw [if_neg hqe] at hm
          rcases List.mem_cons.mp hm with h | h
          · cases h
          · have := queryChar_ne_hash '#' (hq '#' h)
            simp at this
    · rw [if_neg hfe]
      rw [show path ++ ((if query.isEmpty then [] else '?' :: query) ++
            '#' :: fragment) =
          (path ++ (if query.isEmpty then [] else '?' :: query)) ++
            '#' :: fragment by simp]
      apply splitOnFirstChar_found
      intro c hc
      rcases List.mem_append.mp hc with hm | hm
      · exact hpath_nohash c hm
      · by_cases hqe : query.isEmpty
        · rw [if_pos hqe] at hm; cases hm
        · rw [if_neg hqe] at hm
          rcases List.mem_cons.mp hm with rfl | h
          · rfl
          · exact queryChar_ne_hash c (hq c h)
  have h4 : splitQuery (path ++ (if query.isEmpty then [] else '?' :: query)) =
      (path, query) := by
    unfold splitQuery
    by_cases hqe : query.isEmpty
    · rw [if_pos hqe, List.append_nil]
      have hquery_nil : query = [] := List.isEmpty_iff.mp hqe
      rw [hquery_nil]
      apply splitOnFirstChar_none
      intro hmem
      have := hpath_noq '?' hmem
      simp at this
    · rw [if_neg hqe]
      exact splitOnFirstChar_found '?' path query hpath_noq
  unfold py_urlsplit
  rw [hsan, h1]
  simp only [h2, h3, h4]

theorem urlparse_buildUrl (scheme host path query fragment : Str)
    (hs1 : scheme ≠ []) (hs2 : ∀ c ∈ scheme, c ∈ lowerAlpha)
    (hh2 : ∀ c ∈ host, c ∈ hostChars)
    (hp2 : ∀ c ∈ path, c ∈ pathChars) (hp0 : path = [] ∨ path.head? = some '/')
    (hq : ∀ c ∈ query, queryChar c = true)
    (hf : ∀ c ∈ fragment, fragChar c = true) :
    py_urlparse (buildUrl scheme host path query fragment) =
      { scheme := scheme, netloc := host, path := path, params := [],
        query := query, fragment := fragment } := by
  have hnosemi : path.contains ';' = false := by
    cases hc : path.contains ';'
    · rfl
    · have hm := contains_iff_mem.mp hc
      have := (pathChars_facts ';' (hp2 ';' hm)).2.2.1
      simp at this
  have hns : ';' ∉ path := by
    intro hm
    have := (pathChars_facts ';' (hp2 ';' hm)).2.2.1
    simp at this
  unfold py_urlparse
  rw [urlsplit_buildUrl scheme host path query fragment hs1 hs2 hh2 hp2 hp0 hq hf]
  simp [hns]

theorem pyHostname_plain (host : Str) (hh1 : host ≠ [])
    (hh2 : ∀ c ∈ host, c ∈ hostChars) : pyHostname host = some host := by
  have hnoat : host.reverse.takeWhile (fun c => c != '@') = host.reverse :=
    List.takeWhile_eq_self_iff.mpr
      (fun x hx => (hostChars_facts x (hh2 x (List.mem_reverse.mp hx))).2.2.1)
  have hnobr : (afterLastAt host).contains '[' = false := by
    unfold afterLastAt
    rw [hnoat, List.reverse_reverse]
    cases hc : host.contains '['
    · rfl
    · have hm := contains_iff_mem.mp hc
      have := (hostChars_facts '[' (hh2 '[' hm)).2.2.2.2.2.2.1
      simp at this
  have hafter : afterLastAt host = host := by
    unfold afterLastAt
    rw [hnoat, List.reverse_reverse]
  rw [hafter] at hnobr
  have hnocolon : host.takeWhile (fun c => c != ':') = host :=
    List.takeWhile_eq_self_iff.mpr
      (fun x hx => (hostChars_facts x (hh2 x hx)).2.1)
  have hlow : py_lower host = host := by
    unfold py_lower
    rw [List.map_congr_left (fun a ha => (hostChars_facts a (hh2 a ha)).2.2.2.2.2.1)]
    exact List.map_id host
  unfold pyHostname
  rw [hafter]
  simp only [hnobr, Bool.false_eq_true, if_false, hnocolon, hlow]
  rw [if_neg (by simp [List.isEmpty_iff, hh1])]

theorem pyPort_plain (host : Str) (hh2 : ∀ c ∈ host, c ∈ hostChars) :
    pyPort host = none := by
  have hafter : afterLastAt host = host := by
    unfold afterLastAt
    rw [List.takeWhile_eq_self_iff.mpr
      (fun x hx => (hostChars_facts x (hh2 x (List.mem_reverse.mp hx))).2.2.1),
      List.reverse_reverse]
  have hnobr : host.contains '[' = false := by
    cases hc : host.contains '['
    · rfl
    · have hm := contains_iff_mem.mp hc
      have := (hostChars_facts '[' (hh2 '[' hm)).2.2.2.2.2.2.1
      simp at this
  have hdropall : host.dropWhile (fun c => c != ':') = [] :=
    List.dropWhile_eq_nil_iff.mpr
      (fun x hx => (hostChars_facts x (hh2 x hx)).2.1)
  unfold pyPort
  rw [hafter]
  simp only [hnobr, Bool.false_eq_true, if_false, hdropall, List.drop_nil]
  rfl

theorem ofUrl_buildUrl (scheme host path query fragment : Str)
    (hs1 : scheme ≠ []) (hs2 : ∀ c ∈ scheme, c ∈ lowerAlpha)
    (hh1 : host ≠ []) (hh2 : ∀ c ∈ host, c ∈ hostChars)
    (hp2 : ∀ c ∈ path, c ∈ pathChars) (hp0 : path = [] ∨ path.head? = some '/')
    (hq : ∀ c ∈ query, queryChar c = true)
    (hf : ∀ c ∈ fragment, fragChar c = true) :
    UrlParser.ofUrl (buildUrl scheme host path query fragment) =
      { scheme := scheme, path := path, params := [], query := query,
        fragment := fragment, hostname := some host, port := none,
        orig_url := buildUrl scheme host path query fragment,
        orig_netloc := host } := by
  unfold UrlParser.ofUrl
  rw [urlparse_buildUrl scheme host path query fragment hs1 hs2 hh2 hp2 hp0 hq hf]
  simp only
  rw [pyHostname_plain host hh1 hh2, pyPort_plain host hh2]

theorem urlunparse_build (scheme host path q fragment : Str)
    (hs1 : scheme ≠ []) (hh1 : host ≠ [])
    (hp0 : path = [] ∨ path.head? = some '/') :
    py_urlunparse scheme host path [] q fragment =
      buildUrl scheme host path q fragment := by
  unfold py_urlunparse py_urlunsplit buildUrl
  have hhost : host.isEmpty = false := by
    cases host with
    | nil => exact absurd rfl hh1
    | cons a l => rfl
  have hscheme : scheme.isEmpty = false := by
    cases scheme with
    | nil => exact absurd rfl hs1
    | cons a l => rfl
  have hinner : (if !path.isEmpty && path.head? != some '/' then '/' :: path
      else path) = path := by
    rcases hp0 with rfl | hphead
    · simp
    · rw [if_neg]
      simp [hphead]
  simp only [List.isEmpty_nil, Bool.not_true, Bool.false_and, Bool.false_eq_true,
    if_false, hhost, Bool.not_false, Bool.true_or, if_true, hinner, hscheme]
  by_cases hqe : q.isEmpty
  · have hq0 : q = [] := List.isEmpty_iff.mp hqe
    subst hq0
    by_cases hfe : fragment.isEmpty
    · have hf0 : fragment = [] := List.isEmpty_iff.mp hfe
      subst hf0
      simp
    · simp only [List.isEmpty_nil, Bool.not_true, Bool.false_eq_true, if_false,
        hfe, Bool.not_false, if_true]
      simp [List.append_assoc]
  · simp only [hqe, Bool.not_false, if_true]
    by_cases hfe : fragment.isEmpty
    · have hf0 : fragment = [] := List.isEmpty_iff.mp hfe
      subst hf0
      simp [List.append_assoc]
    · simp only [hfe, Bool.not_false, if_true]
      simp [List.append_assoc]

theorem unparse_parsed (scheme host path query fragment u0 netloc0 : Str)
    (hs1 : scheme ≠ []) (hh1 : host ≠ [])
    (hp0 : path = [] ∨ path.head? = some '/')
    (hds : py_contains path ['/', '/'] = false) :
    UrlParser.unparse
      { scheme := scheme, path := path, params := [], query := query,
        fragment := fragment, hostname := some host, port := none,
        orig_url := u0, orig_netloc := netloc0 } =
      buildUrl scheme host path
        (py_lstrip_char '?' (query_string (query_dict query))) fragment := by
  have hscheme : scheme.isEmpty = false := by
    cases scheme with
    | nil => exact absurd rfl hs1
    | cons a l => rfl
  unfold UrlParser.unparse UrlParser._unparse
  simp only [UrlParser.netloc, hscheme, Bool.and_false, Bool.false_eq_true,
    if_false, replaceDslash_id path hds]
  exact urlunparse_build scheme host path
    (py_lstrip_char '?' (query_string (query_dict query))) fragment hs1 hh1 hp0

/-- All characters that `query_string` of a `query_dict` can emit. -/
def queryOutChars : Str :=
  ("ABCDEFGHIJKLMNOPQRSTUVWXYZabcdefghijklmnopqrstuvwxyz0123456789" ++
   "_.-~+%=&?").toList

theorem alwaysSafe_mem (b : Nat) (h : alwaysSafeByte b = true) :
    Char.ofNat b ∈ queryOutChars := by
  have hb : b < 127 := by
    unfold alwaysSafeByte at h
    simp only [Bool.or_eq_true, Bool.and_eq_true, decide_eq_true_eq,
      beq_iff_eq] at h
    rcases h with h | h | h | h | h | h | h <;> omega
  have hall : ∀ b' : Nat, b' < 127 → alwaysSafeByte b' = true →
      Char.ofNat b' ∈ queryOutChars := by decide
  exact hall b hb h

theorem hexDigitU_mem (n : Nat) : hexDigitU n ∈ queryOutChars := by
  by_cases h : n < 16
  · have hall : ∀ m : Nat, m < 16 → hexDigitU m ∈ queryOutChars := by decide
    exact hall n h
  · unfold hexDigitU
    rw [List.getD_eq_default]
    · decide
    · simp
      omega

theorem quote_plus_mem (s : Str) : ∀ c ∈ py_quote_plus s, c ∈ queryOutChars := by
  intro c hc
  unfold py_quote_plus at hc
  rw [List.mem_flatten] at hc
  rcases hc with ⟨chunk, hchunk, hcmem⟩
  rw [List.mem_map] at hchunk
  rcases hchunk with ⟨b, hb, rfl⟩
  by_cases h20 : (b == 0x20) = true
  · rw [if_pos h20] at hcmem
    rcases List.mem_singleton.mp hcmem with rfl
    decide
  · rw [if_neg h20] at hcmem
    by_cases hsafe : alwaysSafeByte b = true
    · rw [if_pos hsafe] at hcmem
      rcases List.mem_singleton.mp hcmem with rfl
      exact alwaysSafe_mem b hsafe
    · rw [if_neg hsafe] at hcmem
      unfold pctEncode at hcmem
      rcases List.mem_cons.mp hcmem with rfl | hcmem
      · decide
      · rcases List.mem_cons.mp hcmem with rfl | hcmem
        · exact hexDigitU_mem _
        · rcases List.mem_singleton.mp hcmem with rfl
          exact hexDigitU_mem _

theorem queryOut_queryChar : ∀ c ∈ queryOutChars, queryChar c = true := by decide

theorem query_string_out (d : List (Str × Str)) :
    ∀ c ∈ py_lstrip_char '?' (query_string d), queryChar c = true := by
  intro c hc
  have hsub : c ∈ query_string d := by
    unfold py_lstrip_char at hc
    exact (List.dropWhile_sublist _).subset hc
  apply queryOut_queryChar
  unfold query_string at hsub
  by_cases hp : (d.map (fun kv =>
      url_escape (_force_unicode kv.1) ++ '=' :: url_escape (_force_unicode kv.2))).isEmpty
  · rw [if_pos hp] at hsub
    cases hsub
  · rw [if_neg hp] at hsub
    rcases List.mem_cons.mp hsub with rfl | hsub
    · decide
    · rcases mem_intercalate_cases ['&'] _ c hsub with hamp | ⟨pair, hpair, hcp⟩
      · rcases List.mem_singleton.mp hamp with rfl
        decide
      · rw [List.mem_map] at hpair
        rcases hpair with ⟨kv, _, rfl⟩
        rcases List.mem_append.mp hcp with hck | hcv
        · exact quote_plus_mem _ c hck
        · rcases List.mem_cons.mp hcv with rfl | hcv
          · decide
          · exact quote_plus_mem _ c hcv

/-- Claim C7 amended -/
theorem unparse_roundtrip_components (scheme host path query fragment : Str)
    (hs1 : scheme ≠ []) (hs2 : ∀ c ∈ scheme, c ∈ lowerAlpha)
    (hh1 : host ≠ []) (hh2 : ∀ c ∈ host, c ∈ hostChars)
    (hp2 : ∀ c ∈ path, c ∈ pathChars) (hp0 : path = [] ∨ path.head? = some '/')
    (hds : py_contains path ['/', '/'] = false)
    (hq : ∀ c ∈ query, queryChar c = true)
    (hf : ∀ c ∈ fragment, fragChar c = true) :
    (UrlParser.ofUrl (UrlParser.unparse (UrlParser.ofUrl (UrlParser.unparse
        (UrlParser.ofUrl (buildUrl scheme host path query fragment)))))).scheme =
      (UrlParser.ofUrl (UrlParser.unparse
        (UrlParser.ofUrl (buildUrl scheme host path query fragment)))).scheme ∧
    (UrlParser.ofUrl (UrlParser.unparse (UrlParser.ofUrl (UrlParser.unparse
        (UrlParser.ofUrl (buildUrl scheme host path query fragment)))))).hostname =
      (UrlParser.ofUrl (UrlParser.unparse
        (UrlParser.ofUrl (buildUrl scheme host path query fragment)))).hostname ∧
    (UrlParser.ofUrl (UrlParser.unparse (UrlParser.ofUrl (UrlParser.unparse
        (UrlParser.ofUrl (buildUrl scheme host path query fragment)))))).path =
      (UrlParser.ofUrl (UrlParser.unparse
        (UrlParser.ofUrl (buildUrl scheme host path query fragment)))).path ∧
    (UrlParser.ofUrl (UrlParser.unparse (UrlParser.ofUrl (UrlParser.unparse
        (UrlParser.ofUrl (buildUrl scheme host path query fragment)))))).fragment =
      (UrlParser.ofUrl (UrlParser.unparse
        (UrlParser.ofUrl (buildUrl scheme host path query fragment)))).fragment := by
  have hq1 : ∀ c ∈ py_lstrip_char '?' (query_string (query_dict query)),
      queryChar c = true := query_string_out _
  have hq2 : ∀ c ∈ py_lstrip_char '?' (query_string (query_dict
      (py_lstrip_char '?' (query_string (query_dict query))))),
      queryChar c = true := query_string_out _
  have h1 := ofUrl_buildUrl scheme host path query fragment
    hs1 hs2 hh1 hh2 hp2 hp0 hq hf
  have h2 : UrlParser.unparse (UrlParser.ofUrl
      (buildUrl scheme host path query fragment)) =
      buildUrl scheme host path
        (py_lstrip_char '?' (query_string (query_dict query))) fragment := by
    rw [h1]
    exact unparse_parsed scheme host path query fragment _ _ hs1 hh1 hp0 hds
  have h3 := ofUrl_buildUrl scheme host path
    (py_lstrip_char '?' (query_string (query_dict query))) fragment
    hs1 hs2 hh1 hh2 hp2 hp0 hq1 hf
  have h4 : UrlParser.unparse (UrlParser.ofUrl (buildUrl scheme host path
      (py_lstrip_char '?' (query_string (query_dict query))) fragment)) =
      buildUrl scheme host path
        (py_lstrip_char '?' (query_string (query_dict
          (py_lstrip_char '?' (query_string (query_dict query)))))) fragment := by
    rw [h3]
    exact unparse_parsed scheme host path _ fragment _ _ hs1 hh1 hp0 hds
  have h5 := ofUrl_buildUrl scheme host path
    (py_lstrip_char '?' (query_string (query_dict
      (py_lstrip_char '?' (query_string (query_dict query)))))) fragment
    hs1 hs2 hh1 hh2 hp2 hp0 hq2 hf
  rw [h2, h4, h3, h5]
  exact ⟨rfl, rfl, rfl, rfl⟩

/-- witness C7 amended -/
theorem unparse_roundtrip_components_witness :
    (UrlParser.ofUrl (UrlParser.unparse (UrlParser.ofUrl (UrlParser.unparse
        (UrlParser.ofUrl (buildUrl "http".toList "example.com".toList
          "/a/b".toList "x=1&y=2".toList "top".toList)))))).path =
      (UrlParser.ofUrl (UrlParser.unparse
        (UrlParser.ofUrl (buildUrl "http".toList "example.com".toList
          "/a/b".toList "x=1&y=2".toList "top".toList)))).path :=
  (unparse_roundtrip_components "http".toList "example.com".toList
    "/a/b".toList "x=1&y=2".toList "top".toList
    (by decide) (by decide) (by decide) (by decide) (by decide)
    (Or.inr (by decide)) (by decide) (by decide) (by decide)).2.2.1

/-- Claim C7 counterexample -/
theorem unparse_roundtrip_cex :
    UrlParser.unparse (UrlParser.ofUrl "http://example.com/a///b".toList) =
      "http://example.com/a//b".toList ∧
    UrlParser.unparse (UrlParser.ofUrl (UrlParser.unparse
      (UrlParser.ofUrl "http://example.com/a///b".toList))) =
      "http://example.com/a/b".toList ∧
    (UrlParser.ofUrl (UrlParser.unparse (UrlParser.ofUrl (UrlParser.unparse
      (UrlParser.ofUrl "http://example.com/a///b".toList))))).path ≠
      (UrlParser.ofUrl (UrlParser.unparse
        (UrlParser.ofUrl "http://example.com/a///b".toList))).path := by
  refine ⟨by decide, by decide, by decide⟩
